import Mathlib

/-
Verification of the frame-to-event core of the nocturnal-eye repository:
shallow Lean embeddings of src/detection_filter.py, src/tracker.py and the
contour-processing loop of src/motion_detector.py, together with theorems
about the behaviour of those functions.

Modelling conventions:
- Python datetimes are modelled either by the structure DateTime (calendar
  fields, for the detection filter, whose logic reads individual fields) or
  by an integer count of microseconds (for the tracker, which only subtracts
  and compares timestamps; microseconds are the exact resolution of Python
  datetimes).
- scipy.spatial.distance.euclidean is only ever compared against other
  distances or nonnegative thresholds; all comparisons are carried out on
  squared distances, which is equivalent (for a threshold t, sqrt d <= t
  iff 0 <= t and d <= t ^ 2, and sqrt is monotone), keeping every
  definition executable over the integers.
- Python dicts are modelled as insertion-ordered association lists; keyed
  update keeps an entry in place, insertion appends, deletion filters.
- fallible Python operations (datetime.replace with an invalid field value,
  dict[key] on a missing key) return Option, with none for the raised
  exception.
-/

namespace NocturnalEye

/-- String literal used as the aggregate fallback bucket of the zone analyzer. -/
def strUnknown : String := "Unknown"

/-- Squared Euclidean distance between two integer points; stands for the
comparisons of scipy euclidean distances in tracker.py (see header note). -/
def distSq (p q : ℤ × ℤ) : ℤ := (p.1 - q.1) ^ 2 + (p.2 - q.2) ^ 2

/-- Model of the MotionEvent dataclass of src/motion_detector.py (the contour
ndarray field is dropped: it is never read by the code under verification). -/
structure MotionEvent where
  timestamp : ℤ
  centroid : ℤ × ℤ
  area : ℤ
  boundingBox : ℤ × ℤ × ℤ × ℤ
  confidence : ℚ
  trackId : Option ℕ
deriving DecidableEq

/-- Model of the TrackedObject dataclass of src/tracker.py. -/
structure TrackedObject where
  trackId : ℕ
  firstSeen : ℤ
  lastSeen : ℤ
  positions : List (ℤ × ℤ)
  areas : List ℤ
  isActive : Bool
  stationaryCount : ℕ
deriving DecidableEq

/-- Model of TrackedObject.update (tracker.py lines 26-41): append the new
centroid and area, set last_seen, and update the stationary counter when at
least two positions exist; the source compares the euclidean distance of the
last two positions with 10 pixels, modelled as squared distance < 100. -/
def TrackedObject.update (o : TrackedObject) (c : ℤ × ℤ) (a : ℤ) (ts : ℤ) : TrackedObject :=
  let newCount : ℕ :=
    match o.positions.getLast? with
    | none => o.stationaryCount
    | some prev => if distSq prev c < 100 then o.stationaryCount + 1 else 0
  { o with
    positions := o.positions ++ [c]
    areas := o.areas ++ [a]
    lastSeen := ts
    stationaryCount := newCount }

/-- Model of TrackedObject.is_stationary (tracker.py lines 68-70), including
the default argument threshold_frames = 30 of the source. -/
def TrackedObject.isStationary (o : TrackedObject) (thresholdFrames : ℕ := 30) : Bool :=
  decide (thresholdFrames ≤ o.stationaryCount)

/-- Tracking section of the configuration dictionary, with the defaults the
source supplies via dict.get in ObjectTracker.__init__. -/
structure TrackingConfig where
  maxTrackingDistance : ℕ := 100
  stationaryThreshold : ℕ := 5

/-- Model of the ObjectTracker state: configuration values captured in
__init__, the insertion-ordered map of live tracks and the id counter. -/
structure ObjectTracker where
  maxTrackingDistance : ℕ
  stationaryThreshold : ℕ
  tracked : List (ℕ × TrackedObject)
  nextTrackId : ℕ
deriving DecidableEq

/-- Model of ObjectTracker.__init__ (tracker.py lines 76-85): the configured
stationary_threshold is multiplied by 60 and stored. -/
def ObjectTracker.init (cfg : TrackingConfig) : ObjectTracker :=
  { maxTrackingDistance := cfg.maxTrackingDistance
    stationaryThreshold := cfg.stationaryThreshold * 60
    tracked := []
    nextTrackId := 1 }

/-- Fixed inactivity timeout of tracker.py line 83: timedelta(seconds=10),
expressed in microseconds, the exact resolution of Python datetimes; all
tracker timestamps are integer microsecond counts. -/
def inactiveTimeout : ℤ := 10000000

/-- Lookup in an insertion-ordered association list, as dict access. -/
def dlookup {α : Type} (k : ℕ) : List (ℕ × α) → Option α
  | [] => none
  | p :: rest => if p.1 = k then some p.2 else dlookup k rest

/-- Keyed in-place update of an association list, as assignment to an
existing dict key. -/
def dupdate {α : Type} (k : ℕ) (f : α → α) (l : List (ℕ × α)) : List (ℕ × α) :=
  l.map (fun p => if p.1 = k then (p.1, f p.2) else p)

/-- Keys of an association list in insertion order. -/
def dkeys {α : Type} (l : List (ℕ × α)) : List ℕ := l.map Prod.fst

/-- Model of tracker.py lines 99-100: every live track is provisionally
marked inactive at the start of an update cycle. -/
def markInactive (l : List (ℕ × TrackedObject)) : List (ℕ × TrackedObject) :=
  l.map (fun p => (p.1, { p.2 with isActive := false }))

/-- Inner loop of tracker.py lines 111-121: scan the live tracks in order,
skipping tracks without positions, and keep the closest track strictly
within the maximum tracking distance; the accumulator carries the squared
minimum distance and the best id so far (none plays the role of infinity). -/
def bestMatchAux (maxSq : ℤ) (c : ℤ × ℤ) :
    List (ℕ × TrackedObject) → Option (ℤ × ℕ) → Option (ℤ × ℕ)
  | [], acc => acc
  | p :: rest, acc =>
    match p.2.positions.getLast? with
    | none => bestMatchAux maxSq c rest acc
    | some lastPos =>
      let d2 := distSq c lastPos
      let better : Bool :=
        match acc with
        | none => decide (d2 < maxSq)
        | some m => decide (d2 < maxSq ∧ d2 < m.1)
      if better then bestMatchAux maxSq c rest (some (d2, p.1))
      else bestMatchAux maxSq c rest acc

/-- Best matching track id for an event centroid, or none when no track lies
strictly within the maximum tracking distance. -/
def bestMatch (maxD : ℕ) (tracks : List (ℕ × TrackedObject)) (c : ℤ × ℤ) : Option ℕ :=
  (bestMatchAux ((maxD : ℤ) ^ 2) c tracks none).map Prod.snd

/-- Processing of a single motion event (tracker.py lines 105-132): a matched
event updates its track in place and re-activates it; an unmatched event is
appended to the unmatched list. -/
def processEvent (maxD : ℕ) (now : ℤ)
    (acc : List (ℕ × TrackedObject) × List MotionEvent) (e : MotionEvent) :
    List (ℕ × TrackedObject) × List MotionEvent :=
  match bestMatch maxD acc.1 e.centroid with
  | some tid =>
    (dupdate tid (fun o => { o.update e.centroid e.area now with isActive := true }) acc.1,
     acc.2)
  | none => (acc.1, acc.2 ++ [e])

/-- Matching phase of ObjectTracker.update: fold processEvent over the
incoming events in input order. -/
def matchPhase (maxD : ℕ) (tracks : List (ℕ × TrackedObject))
    (es : List MotionEvent) (now : ℤ) :
    List (ℕ × TrackedObject) × List MotionEvent :=
  es.foldl (processEvent maxD now) (tracks, ([] : List MotionEvent))

/-- Fresh track for an unmatched event (tracker.py lines 136-142); the
dataclass defaults give is_active = true and stationary_count = 0. -/
def newTrack (tid : ℕ) (now : ℤ) (e : MotionEvent) : TrackedObject :=
  { trackId := tid
    firstSeen := now
    lastSeen := now
    positions := [e.centroid]
    areas := [e.area]
    isActive := true
    stationaryCount := 0 }

/-- Creation step of tracker.py lines 135-144: append the new track under the
next id and bump the counter. -/
def createTracksStep (now : ℤ) (acc : List (ℕ × TrackedObject) × ℕ) (e : MotionEvent) :
    List (ℕ × TrackedObject) × ℕ :=
  (acc.1 ++ [(acc.2, newTrack acc.2 now e)], acc.2 + 1)

/-- Model of ObjectTracker._cleanup_inactive_tracks (tracker.py lines
151-161): drop every track whose last_seen is strictly older than the
inactivity timeout, keeping the rest in order. -/
def cleanupInactiveTracks (now : ℤ) (l : List (ℕ × TrackedObject)) :
    List (ℕ × TrackedObject) :=
  l.filter (fun p => decide (now - p.2.lastSeen ≤ inactiveTimeout))

/-- Model of ObjectTracker.update (tracker.py lines 87-149). The second
component of the result is the state of the callers MotionEvent objects
after the call: the method body contains no assignment to any event field
(in particular none to track_id), so the list is returned unchanged. The
Python return value (the active tracks) is ObjectTracker.getActiveTracks of
the resulting state. -/
def ObjectTracker.update (st : ObjectTracker) (es : List MotionEvent) (now : ℤ) :
    ObjectTracker × List MotionEvent :=
  let t1 := markInactive st.tracked
  let mp := matchPhase st.maxTrackingDistance t1 es now
  let cr := mp.2.foldl (createTracksStep now) (mp.1, st.nextTrackId)
  ({ st with tracked := cleanupInactiveTracks now cr.1, nextTrackId := cr.2 }, es)

/-- Model of ObjectTracker.get_active_tracks (tracker.py lines 164-166). -/
def ObjectTracker.getActiveTracks (st : ObjectTracker) : List TrackedObject :=
  (st.tracked.map Prod.snd).filter (fun o => o.isActive)

/-- Model of ObjectTracker.get_stationary_objects (tracker.py lines 168-173):
the source calls is_stationary() with no argument, so the default
threshold_frames = 30 is used. -/
def ObjectTracker.getStationaryObjects (st : ObjectTracker) : List TrackedObject :=
  (st.tracked.map Prod.snd).filter (fun o => o.isActive && o.isStationary)

/-- Sequential execution of update calls, keeping only the evolving state. -/
def runTracker (st : ObjectTracker) (calls : List (List MotionEvent × ℤ)) : ObjectTracker :=
  calls.foldl (fun s c => (ObjectTracker.update s c.1 c.2).1) st

/-- Track ids created by one update call: the id counter advances by one per
created track, so the created ids are the consecutive range between the old
and the new counter. -/
def callCreatedIds (st : ObjectTracker) (c : List MotionEvent × ℤ) : List ℕ :=
  List.range' st.nextTrackId ((ObjectTracker.update st c.1 c.2).1.nextTrackId - st.nextTrackId)

/-- Track ids created during a sequence of update calls, in creation order. -/
def runCreatedIdsAux : ObjectTracker → List (List MotionEvent × ℤ) → List ℕ
  | _, [] => []
  | st, c :: rest => callCreatedIds st c ++ runCreatedIdsAux (ObjectTracker.update st c.1 c.2).1 rest

/-- Track ids created over the lifetime of a tracker started from the given
configuration, in creation order. -/
def runCreatedIds (cfg : TrackingConfig) (calls : List (List MotionEvent × ℤ)) : List ℕ :=
  runCreatedIdsAux (ObjectTracker.init cfg) calls

/-- Total number of stored positions across all live tracks. -/
def totalPositions (l : List (ℕ × TrackedObject)) : ℕ :=
  (l.map (fun p => p.2.positions.length)).sum

/-- Track k is not matched by any event of the call when executed from the
given state: the matching phase leaves its map entry exactly as the
mark-inactive phase produced it. -/
def notMatchedIn (st : ObjectTracker) (c : List MotionEvent × ℤ) (k : ℕ) : Prop :=
  dlookup k (matchPhase st.maxTrackingDistance (markInactive st.tracked) c.1 c.2).1
    = dlookup k (markInactive st.tracked)

/-- Well-formedness of a tracker state: every live key is below the id
counter, and the keys are pairwise distinct (as dict keys are). -/
def trackerKeysSound (st : ObjectTracker) : Prop :=
  (∀ a ∈ dkeys st.tracked, a < st.nextTrackId) ∧ (dkeys st.tracked).Nodup

instance (st : ObjectTracker) (c : List MotionEvent × ℤ) (k : ℕ) :
    Decidable (notMatchedIn st c k) := by
  unfold notMatchedIn
  infer_instance

instance (st : ObjectTracker) : Decidable (trackerKeysSound st) := by
  unfold trackerKeysSound
  infer_instance

/-- Model of a zone dictionary entry (name, center, radius); the display
color is never read by the analyzed code. -/
structure Zone where
  name : String
  x : ℤ
  y : ℤ
  radius : ℤ
deriving DecidableEq

/-- Model of ZoneAnalyzer.point_in_zone (tracker.py lines 195-199): the
source compares the euclidean distance with the radius inclusively; the
squared form keeps the sign guard because a real square root is never below
a negative radius. -/
def pointInZone (p : ℤ × ℤ) (z : Zone) : Bool :=
  decide (0 ≤ z.radius ∧ distSq p (z.x, z.y) ≤ z.radius ^ 2)

/-- Model of ZoneAnalyzer.get_zone_for_position (tracker.py lines 201-206):
name of the first zone in configured order containing the point. -/
def getZoneForPosition (zones : List Zone) (p : ℤ × ℤ) : Option String :=
  (zones.find? (fun z => pointInZone p z)).map Zone.name

/-- Membership test on a string-keyed counter dict. -/
def dictMem (d : List (String × ℕ)) (k : String) : Bool :=
  d.any (fun p => p.1 == k)

/-- Assignment d[k] = v on a counter dict: update in place when the key
exists, append otherwise, as Python dicts do. -/
def dictSet (d : List (String × ℕ)) (k : String) (v : ℕ) : List (String × ℕ) :=
  if dictMem d k then d.map (fun p => if p.1 == k then (p.1, v) else p)
  else d ++ [(k, v)]

/-- Read access d[k] on a counter dict. -/
def dictGet (d : List (String × ℕ)) (k : String) : Option ℕ :=
  (d.find? (fun p => p.1 == k)).map Prod.snd

/-- Statement d[k] += 1 on a counter dict; none models the KeyError Python
raises when the key is absent. -/
def dictIncr (d : List (String × ℕ)) (k : String) : Option (List (String × ℕ)) :=
  if dictMem d k then some (d.map (fun p => if p.1 == k then (p.1, p.2 + 1) else p))
  else none

/-- Initial counter dict of analyze_activity_by_zone (tracker.py lines
210-211): one zero per configured zone name, then the Unknown bucket. -/
def initCounts (zones : List Zone) : List (String × ℕ) :=
  dictSet (zones.foldl (fun d z => dictSet d z.name 0) []) strUnknown 0

/-- Loop body of analyze_activity_by_zone (tracker.py lines 213-218). The
source guards with the truthiness of the looked-up name, so both a missing
zone and a zone named by the empty string fall into the Unknown bucket. -/
def zoneBucketStep (zones : List Zone) (d : List (String × ℕ)) (p : ℤ × ℤ) :
    Option (List (String × ℕ)) :=
  match getZoneForPosition zones p with
  | some n => if n.isEmpty then dictIncr d strUnknown else dictIncr d n
  | none => dictIncr d strUnknown

/-- Model of ZoneAnalyzer.analyze_activity_by_zone (tracker.py lines
208-220). -/
def analyzeActivityByZone (zones : List Zone) (positions : List (ℤ × ℤ)) :
    Option (List (String × ℕ)) :=
  positions.foldlM (zoneBucketStep zones) (initCounts zones)

/-- Bucket a position is counted under by the loop body of
analyze_activity_by_zone. -/
def bucketName (zones : List Zone) (p : ℤ × ℤ) : String :=
  match getZoneForPosition zones p with
  | some n => if n.isEmpty then strUnknown else n
  | none => strUnknown

/-- Sum of the values of a counter dict. -/
def sumValues (d : List (String × ℕ)) : ℕ := (d.map Prod.snd).sum

/-- Keys of a counter dict in insertion order. -/
def dictKeys (d : List (String × ℕ)) : List String := d.map Prod.fst

/-- Model of a Python datetime value (naive, microsecond resolution). -/
structure DateTime where
  year : ℕ
  month : ℕ
  day : ℕ
  hour : ℕ
  minute : ℕ
  second : ℕ
  microsecond : ℕ
deriving DecidableEq

/-- Leap-year rule of the proleptic Gregorian calendar used by Python
datetime. -/
def isLeapYear (y : ℕ) : Bool :=
  decide (y % 4 = 0 ∧ (y % 100 ≠ 0 ∨ y % 400 = 0))

/-- Number of days of a month as validated by datetime.replace. -/
def daysInMonth (y m : ℕ) : ℕ :=
  if m = 2 then (if isLeapYear y then 29 else 28)
  else if m = 4 ∨ m = 6 ∨ m = 9 ∨ m = 11 then 30
  else 31

/-- Comparison of datetimes, lexicographic over the calendar fields as in
Python. -/
def dtLe (a b : DateTime) : Bool :=
  if a.year ≠ b.year then decide (a.year < b.year)
  else if a.month ≠ b.month then decide (a.month < b.month)
  else if a.day ≠ b.day then decide (a.day < b.day)
  else if a.hour ≠ b.hour then decide (a.hour < b.hour)
  else if a.minute ≠ b.minute then decide (a.minute < b.minute)
  else if a.second ≠ b.second then decide (a.second < b.second)
  else decide (a.microsecond ≤ b.microsecond)

/-- Model of datetime.replace(hour=h, minute=m): none models the ValueError
raised on an out-of-range component. -/
def replaceHourMinute (dt : DateTime) (h m : ℤ) : Option DateTime :=
  if 0 ≤ h ∧ h ≤ 23 ∧ 0 ≤ m ∧ m ≤ 59 then
    some { dt with hour := h.toNat, minute := m.toNat }
  else none

/-- Model of datetime.replace(day=d): none models the ValueError raised when
the day does not exist in the month. -/
def replaceDayField (dt : DateTime) (d : ℕ) : Option DateTime :=
  if 1 ≤ d ∧ d ≤ daysInMonth dt.year dt.month then some { dt with day := d }
  else none

/-- Single digit value of an ASCII digit character. -/
def digitVal (c : Char) : ℕ := c.toNat - 48

/-- Underscore character, allowed between digits by the Python int parser. -/
def underscoreChar : Char := '_'

/-- Plus sign character. -/
def plusChar : Char := '+'

/-- Minus sign character. -/
def minusChar : Char := '-'

/-- Digit tail of the Python int parser: ASCII digits with single
underscores allowed between digits. -/
def parseDigitsAux : ℕ → List Char → Option ℕ
  | acc, [] => some acc
  | acc, [c] => if c.isDigit then some (acc * 10 + digitVal c) else none
  | acc, c :: d :: cs =>
    if c.isDigit then parseDigitsAux (acc * 10 + digitVal c) (d :: cs)
    else if c = underscoreChar ∧ d.isDigit then parseDigitsAux (acc * 10 + digitVal d) cs
    else none

/-- Digit run of the Python int parser: nonempty and starting with a digit. -/
def parseDigitsStart : List Char → Option ℕ
  | [] => none
  | c :: cs => if c.isDigit then parseDigitsAux (digitVal c) cs else none

/-- Model of the Python built-in int applied to a character sequence:
optional surrounding whitespace, optional sign, ASCII digit run with
underscores between digits; none models the raised ValueError. -/
def pythonInt (s : List Char) : Option ℤ :=
  let cs := ((s.dropWhile Char.isWhitespace).reverse.dropWhile Char.isWhitespace).reverse
  match cs with
  | [] => none
  | c :: rest =>
    if c = plusChar then (parseDigitsStart rest).map (fun n => (n : ℤ))
    else if c = minusChar then (parseDigitsStart rest).map (fun n => -(n : ℤ))
    else (parseDigitsStart cs).map (fun n => (n : ℤ))

/-- Colon character separating hours from minutes in time strings. -/
def colonChar : Char := ':'

/-- Split of a character sequence at every colon, with the semantics of the
Python str.split method on an explicit separator. -/
def splitAtColonsAux : List Char → List Char → List (List Char)
  | [], acc => [acc.reverse]
  | c :: cs, acc =>
    if c = colonChar then acc.reverse :: splitAtColonsAux cs []
    else splitAtColonsAux cs (c :: acc)

/-- Split of a string at every colon, as time_str.split of the source. -/
def splitAtColons (s : String) : List (List Char) :=
  splitAtColonsAux s.data []

/-- Model of DetectionFilter._parse_time (detection_filter.py lines 43-64):
split on the colon, parse hour and optional minute, validate the ranges, and
fall back to 22:00 on any failure. -/
def parseTime (s : String) : ℤ × ℤ :=
  match splitAtColons s with
  | [] => (22, 0)
  | [p0] =>
    match pythonInt p0 with
    | none => (22, 0)
    | some h => if 0 ≤ h ∧ h ≤ 23 then (h, 0) else (22, 0)
  | p0 :: p1 :: _ =>
    match pythonInt p0, pythonInt p1 with
    | some h, some m =>
      if 0 ≤ h ∧ h ≤ 23 ∧ 0 ≤ m ∧ m ≤ 59 then (h, m) else (22, 0)
    | _, _ => (22, 0)

/-- Parsed state of a DetectionFilter (detection_filter.py lines 16-41): the
enabled flag and the parsed start and end times. -/
structure DetectionFilter where
  enabled : Bool
  startHour : ℤ
  startMinute : ℤ
  endHour : ℤ
  endMinute : ℤ
deriving DecidableEq

/-- Construction of a DetectionFilter from the configured time strings, as
DetectionFilter.__init__ does via _parse_time. -/
def mkDetectionFilter (enabled : Bool) (startStr endStr : String) : DetectionFilter :=
  let s := parseTime startStr
  let e := parseTime endStr
  { enabled := enabled
    startHour := s.1
    startMinute := s.2
    endHour := e.1
    endMinute := e.2 }

/-- Model of DetectionFilter.should_publish_detection (detection_filter.py
lines 66-111) on an explicitly supplied timestamp. -/
def shouldPublishDetection (f : DetectionFilter) (ts : DateTime) : Bool :=
  if f.enabled = false then true
  else
    let currentMinutes : ℤ := (ts.hour : ℤ) * 60 + (ts.minute : ℤ)
    let startMinutes : ℤ := f.startHour * 60 + f.startMinute
    let endMinutes : ℤ := f.endHour * 60 + f.endMinute
    if startMinutes > endMinutes then
      decide (currentMinutes ≥ startMinutes ∨ currentMinutes < endMinutes)
    else
      decide (currentMinutes ≥ startMinutes ∧ currentMinutes < endMinutes)

/-- Model of DetectionFilter.get_next_active_time (detection_filter.py lines
127-175) on an explicitly supplied timestamp; none models a raised
ValueError. Every datetime.replace of the source is kept, including the
start_time binding of line 146 whose value is discarded, and the
day-increment of line 173 which replaces the day field with day + 1. -/
def getNextActiveTime (f : DetectionFilter) (ts : DateTime) : Option DateTime :=
  if f.enabled = false then some ts
  else
    let cur := { ts with second := 0, microsecond := 0 }
    let currentMinutes : ℤ := (cur.hour : ℤ) * 60 + (cur.minute : ℤ)
    let startMinutes : ℤ := f.startHour * 60 + f.startMinute
    let endMinutes : ℤ := f.endHour * 60 + f.endMinute
    (replaceHourMinute cur f.startHour f.startMinute).bind (fun _ =>
      if startMinutes > endMinutes then
        if currentMinutes ≥ startMinutes ∨ currentMinutes < endMinutes then some cur
        else replaceHourMinute cur f.startHour f.startMinute
      else
        if currentMinutes ≥ startMinutes ∧ currentMinutes < endMinutes then some cur
        else
          (replaceHourMinute cur f.startHour f.startMinute).bind (fun nextActive =>
            if dtLe nextActive cur then replaceDayField nextActive (nextActive.day + 1)
            else some nextActive))

/-- Motion section of the configuration dictionary, restricted to the values
the contour loop of detect_motion reads. -/
structure MotionConfig where
  minArea : ℚ
  maxArea : ℚ
  minConfidence : ℚ

/-- Contour abstracted by the quantities detect_motion computes from it with
OpenCV (area from cv2.contourArea, which is nonnegative under the default
orientation flag; bounding rectangle; moment centroid with its bounding-box
fallback already applied), in the ROI-disabled coordinate frame. The
image-processing pipeline producing the contours is outside the embedding. -/
structure Contour where
  area : ℚ
  centroid : ℤ × ℤ
  boundingBox : ℤ × ℤ × ℤ × ℤ

/-- Truncation toward zero, as the Python int built-in applied to a float. -/
def ratTrunc (q : ℚ) : ℤ := if 0 ≤ q then q.floor else -((-q).floor)

/-- Contour-to-event loop of MotionDetector.detect_motion (motion_detector.py
lines 134-183): keep contours with area inside the configured band, compute
confidence = min(1, area / max_area), drop events below the minimum
confidence, and emit one MotionEvent per surviving contour. -/
def detectMotionEvents (cfg : MotionConfig) (now : ℤ) (contours : List Contour) :
    List MotionEvent :=
  contours.filterMap (fun c =>
    if cfg.minArea ≤ c.area ∧ c.area ≤ cfg.maxArea then
      let confidence := min 1 (c.area / cfg.maxArea)
      if confidence < cfg.minConfidence then none
      else
        some { timestamp := now
               centroid := c.centroid
               area := ratTrunc c.area
               boundingBox := c.boundingBox
               confidence := confidence
               trackId := none }
    else none)

/-! Concrete values used by counterexamples, code-bug evaluations and
witnesses. -/

/-- Empty string, the falsy zone name of the truthiness counterexample. -/
def strEmpty : String := ""

/-- Default configured start of the active window. -/
def strNightStart : String := "22:00"

/-- Default configured end of the active window. -/
def strNightEnd : String := "06:00"

/-- Start of a non-wrapping (daytime) window. -/
def strDayStart : String := "08:00"

/-- End of a non-wrapping (daytime) window. -/
def strDayEnd : String := "10:00"

/-- Unparseable time string from the spec's test vector. -/
def strInvalid : String := "invalid"

/-- Detection filter with the default night window 22:00-06:00. -/
def nightFilter : DetectionFilter := mkDetectionFilter true strNightStart strNightEnd

/-- Detection filter with a non-wrapping day window 08:00-10:00. -/
def dayFilter : DetectionFilter := mkDetectionFilter true strDayStart strDayEnd

/-- Sample timestamp on 2023-01-01 at the given wall-clock time. -/
def dtSample (h m s : ℕ) : DateTime :=
  { year := 2023, month := 1, day := 1, hour := h, minute := m, second := s, microsecond := 0 }

/-- Noon on the last day of January 2023. -/
def dtJanLast : DateTime :=
  { year := 2023, month := 1, day := 31, hour := 12, minute := 0, second := 0, microsecond := 0 }

/-- Motion event at the given centroid, with neutral remaining fields. -/
def evAt (x y : ℤ) : MotionEvent :=
  { timestamp := 0, centroid := (x, y), area := 2000, boundingBox := (0, 0, 1, 1),
    confidence := 1, trackId := none }

/-- Tracker state after one update call on a fresh default tracker with a
single event at the origin at time 0: one track with id 1. -/
def trackerEx1 : ObjectTracker :=
  (ObjectTracker.update (ObjectTracker.init {}) [evAt 0 0] 0).1

/-- Second update call on trackerEx1, one second later, with two events that
are both within tracking distance of track 1. -/
def trackerEx2 : ObjectTracker × List MotionEvent :=
  ObjectTracker.update trackerEx1 [evAt 0 0, evAt 1 0] 1000000

/-- Track stored in trackerEx1 under id 1: created at time 0 from the event
at the origin. -/
def trackObjEx : TrackedObject := newTrack 1 0 (evAt 0 0)

/-- Three empty update calls at nondecreasing times: two within the
10-second inactivity timeout of time 0, the third just past it. -/
def quietCalls : List (List MotionEvent × ℤ) :=
  [([], 3000000), ([], 10000000), ([], 10000001)]

/-- Active tracked object whose stationary counter has reached 30. -/
def objCount30 : TrackedObject :=
  { trackId := 1, firstSeen := 0, lastSeen := 0, positions := [(0, 0)], areas := [2000],
    isActive := true, stationaryCount := 30 }

/-- Default-configured tracker holding objCount30. -/
def trackerStationaryEx : ObjectTracker :=
  { ObjectTracker.init {} with tracked := [(1, objCount30)] }

/-- Zone whose name is the empty string, centered at the origin. -/
def zoneNoName : Zone := { name := strEmpty, x := 0, y := 0, radius := 5 }

/-- First zone of the boundary example. -/
def zoneA : Zone := { name := "A", x := 0, y := 0, radius := 5 }

/-- Second, overlapping zone of the boundary example. -/
def zoneB : Zone := { name := "B", x := 1, y := 1, radius := 50 }

/-- Small motion configuration for the confidence witness. -/
def motionCfgEx : MotionConfig := { minArea := 1, maxArea := 4, minConfidence := 0 }

/-- Contour of area 2 for the confidence witness. -/
def contourEx : Contour := { area := 2, centroid := (7, 8), boundingBox := (6, 7, 2, 2) }

/-! General helper lemmas. -/

/-- Find of a list predicate returns the element at index i when that element
satisfies the predicate and every earlier element does not. -/
theorem find_first {α : Type} (pred : α → Bool) (l : List α) (i : Fin l.length)
    (hi : pred (l.get i) = true)
    (hbefore : ∀ j (hj : j < i.1), pred (l.get ⟨j, lt_trans hj i.2⟩) = false) :
    l.find? pred = some (l.get i) := by
  induction l with
  | nil => exact absurd i.2 (by simp)
  | cons z rest ih =>
    cases i using Fin.cases with
    | zero => simp_all [List.find?]
    | succ i0 =>
      have h0 : pred z = false := hbefore 0 (Nat.succ_pos _)
      rw [List.find?, h0]
      exact ih i0 hi (fun j hj => hbefore (j + 1) (Nat.succ_lt_succ hj))

/-- Range of consecutive naturals is sorted. -/
theorem sorted_range_consecutive (s n : ℕ) : List.Sorted (· < ·) (List.range' s n) := by
  rw [List.Sorted]
  apply List.pairwise_lt_range'
  norm_num

/-- Specification of the track-creation fold: it advances the id counter by
one per event, appends the new tracks behind the existing ones under the
consecutive fresh ids, and stamps them with the current time and a single
position. -/
theorem createTracks_foldl_spec (now : ℤ) :
    ∀ (es : List MotionEvent) (tracks : List (ℕ × TrackedObject)) (n : ℕ),
    (es.foldl (createTracksStep now) (tracks, n)).2 = n + es.length
    ∧ ∃ newl, (es.foldl (createTracksStep now) (tracks, n)).1 = tracks ++ newl
        ∧ dkeys newl = List.range' n es.length
        ∧ ∀ p ∈ newl, p.2.lastSeen = now ∧ p.2.positions.length = 1 := by
  intro es
  induction es with
  | nil =>
    intro tracks n
    exact ⟨by simp, [], by simp, by simp [dkeys], by simp⟩
  | cons e rest ih =>
    intro tracks n
    have hstep : (e :: rest).foldl (createTracksStep now) (tracks, n)
        = rest.foldl (createTracksStep now) (tracks ++ [(n, newTrack n now e)], n + 1) := by
      rfl
    obtain ⟨h2, newl, h1, hk, hfresh⟩ := ih (tracks ++ [(n, newTrack n now e)]) (n + 1)
    refine ⟨by rw [hstep, h2]; simp; omega, (n, newTrack n now e) :: newl, ?_, ?_, ?_⟩
    · rw [hstep, h1]
      simp
    · simp [dkeys] at hk
      simp [dkeys, hk, List.range'_succ]
    · intro p hp
      rcases List.mem_cons.1 hp with h | h
      · rw [h]
        exact ⟨rfl, rfl⟩
      · exact hfresh p h

/-- Id counter after one update call: the old counter plus one per unmatched
event of the matching phase. -/
theorem update_nextTrackId_eq (st : ObjectTracker) (es : List MotionEvent) (now : ℤ) :
    (ObjectTracker.update st es now).1.nextTrackId
      = st.nextTrackId
        + (matchPhase st.maxTrackingDistance (markInactive st.tracked) es now).2.length := by
  have h := (createTracks_foldl_spec now
    (matchPhase st.maxTrackingDistance (markInactive st.tracked) es now).2
    (matchPhase st.maxTrackingDistance (markInactive st.tracked) es now).1
    st.nextTrackId).1
  exact h

/-- Id counter never decreases across an update call. -/
theorem nextTrackId_mono (st : ObjectTracker) (es : List MotionEvent) (now : ℤ) :
    st.nextTrackId ≤ (ObjectTracker.update st es now).1.nextTrackId := by
  rw [update_nextTrackId_eq]
  omega

/-- Membership in the ids created by one call: exactly the interval between
the old and the new counter. -/
theorem callCreatedIds_mem (st : ObjectTracker) (c : List MotionEvent × ℤ) (a : ℕ) :
    a ∈ callCreatedIds st c
      ↔ st.nextTrackId ≤ a ∧ a < (ObjectTracker.update st c.1 c.2).1.nextTrackId := by
  have hm := nextTrackId_mono st c.1 c.2
  rw [callCreatedIds, List.mem_range'_1]
  omega

/-- Ids created along a run are sorted and bounded below by the current
counter. -/
theorem runCreatedIdsAux_sorted :
    ∀ (calls : List (List MotionEvent × ℤ)) (st : ObjectTracker),
    List.Sorted (· < ·) (runCreatedIdsAux st calls)
    ∧ ∀ a ∈ runCreatedIdsAux st calls, st.nextTrackId ≤ a := by
  intro calls
  induction calls with
  | nil => exact fun st => ⟨by simp [runCreatedIdsAux], by simp [runCreatedIdsAux]⟩
  | cons c rest ih =>
    intro st
    rw [runCreatedIdsAux]
    have hm := nextTrackId_mono st c.1 c.2
    constructor
    · refine List.pairwise_append.mpr ⟨?_, (ih _).1, ?_⟩
      · rw [callCreatedIds]
        exact sorted_range_consecutive _ _
      · intro x hx y hy
        exact lt_of_lt_of_le ((callCreatedIds_mem st c x).1 hx).2 ((ih _).2 y hy)
    · intro a ha
      rcases List.mem_append.1 ha with h | h
      · exact ((callCreatedIds_mem st c a).1 h).1
      · exact le_trans hm ((ih _).2 a h)

/-- Total position count of a cons cell. -/
theorem totalPositions_cons (p : ℕ × TrackedObject) (l : List (ℕ × TrackedObject)) :
    totalPositions (p :: l) = p.2.positions.length + totalPositions l := by
  simp [totalPositions]

/-- Keyed update leaves the key list unchanged. -/
theorem dkeys_dupdate {α : Type} (k : ℕ) (f : α → α) (l : List (ℕ × α)) :
    dkeys (dupdate k f l) = dkeys l := by
  induction l with
  | nil => rfl
  | cons p rest ih =>
    simp only [dkeys, dupdate, List.map_cons] at *
    by_cases h : p.1 = k <;> simp [h, ih]

/-- Marking every track inactive leaves the key list unchanged. -/
theorem dkeys_markInactive (l : List (ℕ × TrackedObject)) :
    dkeys (markInactive l) = dkeys l := by
  induction l with
  | nil => rfl
  | cons p rest ih =>
    simp only [dkeys, markInactive, List.map_cons] at *
    simp [ih]

/-- Keyed update of an absent key changes nothing. -/
theorem dupdate_of_not_mem {α : Type} (k : ℕ) (f : α → α) (l : List (ℕ × α))
    (h : k ∉ dkeys l) : dupdate k f l = l := by
  induction l with
  | nil => rfl
  | cons p rest ih =>
    simp only [dkeys, List.map_cons, List.mem_cons, not_or] at h
    simp only [dupdate, List.map_cons]
    rw [if_neg (fun hb => h.1 hb.symm)]
    have := ih (by simpa [dkeys] using h.2)
    simp only [dupdate] at this
    rw [this]

/-- Total position count distributes over append. -/
theorem totalPositions_append (l1 l2 : List (ℕ × TrackedObject)) :
    totalPositions (l1 ++ l2) = totalPositions l1 + totalPositions l2 := by
  simp [totalPositions]

/-- Total position count ignores the active flags. -/
theorem totalPositions_markInactive (l : List (ℕ × TrackedObject)) :
    totalPositions (markInactive l) = totalPositions l := by
  induction l with
  | nil => rfl
  | cons p rest ih =>
    simp only [totalPositions, markInactive, List.map_cons, List.sum_cons] at *
    rw [ih]

/-- A matched-track update appends exactly one position. -/
theorem positions_update_length (o : TrackedObject) (c : ℤ × ℤ) (a : ℤ) (t : ℤ) :
    ({ o.update c a t with isActive := true } : TrackedObject).positions.length
      = o.positions.length + 1 := by
  simp [TrackedObject.update]

/-- Updating the track under a present key (keys distinct) grows the total
position count by exactly one. -/
theorem totalPositions_dupdate (c : ℤ × ℤ) (a : ℤ) (t : ℤ) (l : List (ℕ × TrackedObject))
    (k : ℕ) (hmem : k ∈ dkeys l) (hnd : (dkeys l).Nodup) :
    totalPositions (dupdate k (fun o => { o.update c a t with isActive := true }) l)
      = totalPositions l + 1 := by
  induction l with
  | nil => simp [dkeys] at hmem
  | cons p rest ih =>
    rw [dkeys, List.map_cons, List.nodup_cons] at hnd
    rw [dkeys, List.map_cons, List.mem_cons] at hmem
    by_cases hk : p.1 = k
    · have hnotin : k ∉ dkeys rest := by
        rw [← hk]
        exact hnd.1
      have hrest : dupdate k (fun o => { o.update c a t with isActive := true }) rest = rest :=
        dupdate_of_not_mem _ _ _ hnotin
      rw [dupdate, List.map_cons, if_pos hk]
      rw [show List.map
          (fun q => if q.1 = k then (q.1, { q.2.update c a t with isActive := true }) else q) rest
        = rest from hrest]
      rw [totalPositions_cons, totalPositions_cons, positions_update_length]
      omega
    · have hm2 : k ∈ dkeys rest := by
        rcases hmem with h | h
        · exact absurd h.symm hk
        · exact h
      rw [dupdate, List.map_cons, if_neg hk]
      rw [totalPositions_cons, totalPositions_cons]
      rw [show List.map
          (fun q => if q.1 = k then (q.1, { q.2.update c a t with isActive := true }) else q) rest
        = dupdate k (fun o => { o.update c a t with isActive := true }) rest from rfl]
      rw [ih hm2 hnd.2]
      omega

/-- A successful best-match scan always answers with a key of the scanned
track list (or hands the accumulator through). -/
theorem bestMatchAux_mem (maxSq : ℤ) (c : ℤ × ℤ) :
    ∀ (tracks : List (ℕ × TrackedObject)) (acc : Option (ℤ × ℕ)) (m : ℤ × ℕ),
    bestMatchAux maxSq c tracks acc = some m → m.2 ∈ dkeys tracks ∨ acc = some m := by
  intro tracks
  induction tracks with
  | nil =>
    intro acc m h
    exact Or.inr h
  | cons p rest ih =>
    intro acc m h
    rw [bestMatchAux] at h
    rcases hlast : p.2.positions.getLast? with - | lastPos
    · rw [hlast] at h
      rcases ih acc m h with h2 | h2
      · exact Or.inl (by simp [dkeys] at h2 ⊢; exact Or.inr h2)
      · exact Or.inr h2
    · rw [hlast] at h
      dsimp only at h
      split at h
      · rcases ih _ m h with h2 | h2
        · exact Or.inl (by simp [dkeys] at h2 ⊢; exact Or.inr h2)
        · injection h2 with h3
          exact Or.inl (by simp [dkeys, ← h3])
      · rcases ih acc m h with h2 | h2
        · exact Or.inl (by simp [dkeys] at h2 ⊢; exact Or.inr h2)
        · exact Or.inr h2

/-- A matched track id is a key of the live-track map. -/
theorem bestMatch_mem (maxD : ℕ) (tracks : List (ℕ × TrackedObject)) (c : ℤ × ℤ) (tid : ℕ)
    (h : bestMatch maxD tracks c = some tid) : tid ∈ dkeys tracks := by
  rw [bestMatch, Option.map_eq_some'] at h
  obtain ⟨m, hm, hm2⟩ := h
  rcases bestMatchAux_mem _ _ tracks none m hm with h2 | h2
  · rw [← hm2]
    exact h2
  · cases h2

/-- One event-processing step keeps the keys and accounts for exactly one
position: appended to the matched track, or recorded as an unmatched event. -/
theorem processEvent_spec (maxD : ℕ) (now : ℤ)
    (acc : List (ℕ × TrackedObject) × List MotionEvent) (e : MotionEvent)
    (hnd : (dkeys acc.1).Nodup) :
    dkeys (processEvent maxD now acc e).1 = dkeys acc.1
    ∧ totalPositions (processEvent maxD now acc e).1 + (processEvent maxD now acc e).2.length
        = totalPositions acc.1 + acc.2.length + 1 := by
  rw [processEvent]
  cases hbm : bestMatch maxD acc.1 e.centroid with
  | none =>
    simp
    omega
  | some tid =>
    have hmem := bestMatch_mem maxD acc.1 e.centroid tid hbm
    dsimp only
    refine ⟨dkeys_dupdate _ _ _, ?_⟩
    rw [totalPositions_dupdate _ _ _ _ _ hmem hnd]
    omega

/-- The event-processing fold keeps the keys and accounts for exactly one
position per event. -/
theorem processEvents_fold_spec (maxD : ℕ) (now : ℤ) :
    ∀ (es : List MotionEvent) (acc : List (ℕ × TrackedObject) × List MotionEvent),
    (dkeys acc.1).Nodup →
    dkeys (es.foldl (processEvent maxD now) acc).1 = dkeys acc.1
    ∧ totalPositions (es.foldl (processEvent maxD now) acc).1
        + (es.foldl (processEvent maxD now) acc).2.length
      = totalPositions acc.1 + acc.2.length + es.length := by
  intro es
  induction es with
  | nil =>
    intro acc hnd
    exact ⟨rfl, by simp⟩
  | cons e rest ih =>
    intro acc hnd
    rw [List.foldl_cons]
    have hstep := processEvent_spec maxD now acc e hnd
    have hnd2 : (dkeys (processEvent maxD now acc e).1).Nodup := by
      rw [hstep.1]
      exact hnd
    obtain ⟨hk, hc⟩ := ih (processEvent maxD now acc e) hnd2
    refine ⟨by rw [hk, hstep.1], ?_⟩
    rw [hc, List.length_cons]
    omega

/-- Inactivity timeout is a nonnegative duration. -/
theorem timeout_nonneg : (0 : ℤ) ≤ inactiveTimeout := by norm_num [inactiveTimeout]

/-- Mark-inactive keeps every last-seen time, hence keeps freshness. -/
theorem markInactive_fresh (now : ℤ) (l : List (ℕ × TrackedObject))
    (h : ∀ p ∈ l, now - p.2.lastSeen ≤ inactiveTimeout) :
    ∀ p ∈ markInactive l, now - p.2.lastSeen ≤ inactiveTimeout := by
  intro p hp
  rw [markInactive, List.mem_map] at hp
  obtain ⟨q, hq, rfl⟩ := hp
  exact h q hq

/-- The event-processing fold keeps every track fresh: an updated track is
stamped with the current time, the rest keep their last-seen times. -/
theorem processEvents_fresh (maxD : ℕ) (now : ℤ) :
    ∀ (es : List MotionEvent) (acc : List (ℕ × TrackedObject) × List MotionEvent),
    (∀ p ∈ acc.1, now - p.2.lastSeen ≤ inactiveTimeout) →
    ∀ p ∈ (es.foldl (processEvent maxD now) acc).1, now - p.2.lastSeen ≤ inactiveTimeout := by
  intro es
  induction es with
  | nil =>
    intro acc h
    exact h
  | cons e rest ih =>
    intro acc h
    rw [List.foldl_cons]
    refine ih (processEvent maxD now acc e) ?_
    intro p hp
    rw [processEvent] at hp
    cases hbm : bestMatch maxD acc.1 e.centroid with
    | none =>
      rw [hbm] at hp
      exact h p hp
    | some tid =>
      rw [hbm] at hp
      dsimp only at hp
      rw [dupdate, List.mem_map] at hp
      obtain ⟨q, hq, rfl⟩ := hp
      by_cases hqk : q.1 = tid
      · rw [if_pos hqk]
        show now - (q.2.update e.centroid e.area now).lastSeen ≤ inactiveTimeout
        have hls : (q.2.update e.centroid e.area now).lastSeen = now := by
          simp [TrackedObject.update]
        rw [hls, sub_self]
        exact timeout_nonneg
      · rw [if_neg hqk]
        exact h q hq

/-- The track-creation fold keeps every track fresh: new tracks are stamped
with the current time. -/
theorem createTracks_fresh (now : ℤ) (es : List MotionEvent)
    (tracks : List (ℕ × TrackedObject)) (n : ℕ)
    (h : ∀ p ∈ tracks, now - p.2.lastSeen ≤ inactiveTimeout) :
    ∀ p ∈ (es.foldl (createTracksStep now) (tracks, n)).1,
      now - p.2.lastSeen ≤ inactiveTimeout := by
  obtain ⟨-, newl, hsplit, -, hfresh⟩ := createTracks_foldl_spec now es tracks n
  rw [hsplit]
  intro p hp
  rcases List.mem_append.1 hp with hp2 | hp2
  · exact h p hp2
  · rw [(hfresh p hp2).1, sub_self]
    exact timeout_nonneg

/-- Cleanup removes nothing when every track is fresh. -/
theorem cleanup_eq_self (now : ℤ) (l : List (ℕ × TrackedObject))
    (h : ∀ p ∈ l, now - p.2.lastSeen ≤ inactiveTimeout) :
    cleanupInactiveTracks now l = l := by
  rw [cleanupInactiveTracks]
  exact List.filter_eq_self.mpr (fun p hp => decide_eq_true (h p hp))

/-- Unfolding of the live-track map produced by one update call. -/
theorem update_tracked_eq (st : ObjectTracker) (es : List MotionEvent) (now : ℤ) :
    (ObjectTracker.update st es now).1.tracked
      = cleanupInactiveTracks now
          ((matchPhase st.maxTrackingDistance (markInactive st.tracked) es now).2.foldl
            (createTracksStep now)
            ((matchPhase st.maxTrackingDistance (markInactive st.tracked) es now).1,
             st.nextTrackId)).1 := rfl

/-- Key and counting specification of the matching phase. -/
theorem matchPhase_spec (maxD : ℕ) (now : ℤ) (es : List MotionEvent)
    (tracks : List (ℕ × TrackedObject)) (hnd : (dkeys tracks).Nodup) :
    dkeys (matchPhase maxD tracks es now).1 = dkeys tracks
    ∧ totalPositions (matchPhase maxD tracks es now).1
        + (matchPhase maxD tracks es now).2.length
      = totalPositions tracks + es.length := by
  have h := processEvents_fold_spec maxD now es (tracks, []) hnd
  rw [matchPhase]
  refine ⟨h.1, ?_⟩
  have h2 := h.2
  simpa using h2

/-- Freshness is preserved by the matching phase. -/
theorem matchPhase_fresh (maxD : ℕ) (now : ℤ) (es : List MotionEvent)
    (tracks : List (ℕ × TrackedObject))
    (h : ∀ p ∈ tracks, now - p.2.lastSeen ≤ inactiveTimeout) :
    ∀ p ∈ (matchPhase maxD tracks es now).1, now - p.2.lastSeen ≤ inactiveTimeout := by
  rw [matchPhase]
  exact processEvents_fresh maxD now es (tracks, []) h

/-- Cleanup only ever drops entries, so its keys form a sublist. -/
theorem dkeys_cleanup_sublist (now : ℤ) (l : List (ℕ × TrackedObject)) :
    (dkeys (cleanupInactiveTracks now l)).Sublist (dkeys l) :=
  (List.filter_sublist l).map Prod.fst

/-- Keys distribute over append. -/
theorem dkeys_append {α : Type} (l1 l2 : List (ℕ × α)) :
    dkeys (l1 ++ l2) = dkeys l1 ++ dkeys l2 := by
  simp [dkeys]

/-- One update call preserves well-formedness of the tracker state. -/
theorem update_preserves_sound (st : ObjectTracker) (es : List MotionEvent) (now : ℤ)
    (h : trackerKeysSound st) : trackerKeysSound (ObjectTracker.update st es now).1 := by
  obtain ⟨hbound, hnd⟩ := h
  have hnd1 : (dkeys (markInactive st.tracked)).Nodup := by
    rw [dkeys_markInactive]
    exact hnd
  obtain ⟨hkeq, -⟩ := matchPhase_spec st.maxTrackingDistance now es (markInactive st.tracked) hnd1
  obtain ⟨-, newl, hsplit, hknewl, -⟩ := createTracks_foldl_spec now
    (matchPhase st.maxTrackingDistance (markInactive st.tracked) es now).2
    (matchPhase st.maxTrackingDistance (markInactive st.tracked) es now).1
    st.nextTrackId
  have hkeys_cr : dkeys ((matchPhase st.maxTrackingDistance (markInactive st.tracked) es now).2.foldl
        (createTracksStep now)
        ((matchPhase st.maxTrackingDistance (markInactive st.tracked) es now).1, st.nextTrackId)).1
      = dkeys st.tracked
        ++ List.range' st.nextTrackId
            (matchPhase st.maxTrackingDistance (markInactive st.tracked) es now).2.length := by
    rw [hsplit, dkeys_append, hknewl, hkeq, dkeys_markInactive]
  have hnext := update_nextTrackId_eq st es now
  constructor
  · intro a ha
    rw [update_tracked_eq] at ha
    have hsub := (dkeys_cleanup_sublist now _).subset ha
    rw [hkeys_cr] at hsub
    rw [hnext]
    rcases List.mem_append.1 hsub with h2 | h2
    · have := hbound a h2
      omega
    · have := List.mem_range'_1.mp h2
      omega
  · rw [update_tracked_eq]
    refine List.Nodup.sublist (dkeys_cleanup_sublist now _) ?_
    rw [hkeys_cr, List.nodup_append]
    refine ⟨hnd, (sorted_range_consecutive _ _).nodup, ?_⟩
    intro a ha hb
    have h1 := hbound a ha
    have h2 := (List.mem_range'_1.mp hb).1
    omega

/-- A fresh tracker state is well-formed. -/
theorem init_sound (cfg : TrackingConfig) : trackerKeysSound (ObjectTracker.init cfg) := by
  constructor
  · intro a ha
    simp [ObjectTracker.init, dkeys] at ha
  · simp [ObjectTracker.init, dkeys]

/-- Every reachable tracker state is well-formed. -/
theorem runTracker_sound :
    ∀ (calls : List (List MotionEvent × ℤ)) (st : ObjectTracker),
    trackerKeysSound st → trackerKeysSound (runTracker st calls) := by
  intro calls
  induction calls with
  | nil =>
    intro st h
    exact h
  | cons c rest ih =>
    intro st h
    exact ih (ObjectTracker.update st c.1 c.2).1 (update_preserves_sound st c.1 c.2 h)

/-- A list of single-position tracks stores as many positions as entries. -/
theorem totalPositions_all_one (l : List (ℕ × TrackedObject))
    (h : ∀ p ∈ l, p.2.positions.length = 1) : totalPositions l = l.length := by
  induction l with
  | nil => rfl
  | cons p rest ih =>
    rw [totalPositions_cons, h p (List.mem_cons_self p rest), List.length_cons,
      ih (fun q hq => h q (List.mem_cons_of_mem p hq))]
    omega

/-- Absent keys are exactly the failed lookups. -/
theorem dlookup_eq_none_iff {α : Type} (k : ℕ) (l : List (ℕ × α)) :
    dlookup k l = none ↔ k ∉ dkeys l := by
  induction l with
  | nil => simp [dlookup, dkeys]
  | cons p rest ih =>
    rw [dlookup, dkeys, List.map_cons, List.mem_cons]
    by_cases h : p.1 = k
    · simp [h]
    · simp only [if_neg h, ih, dkeys]
      constructor
      · intro h2
        rintro (h3 | h3)
        · exact h h3.symm
        · exact h2 h3
      · intro h2 h3
        exact h2 (Or.inr h3)

/-- A successful lookup means the key is present. -/
theorem mem_of_dlookup_some {α : Type} (k : ℕ) (l : List (ℕ × α)) (v : α)
    (h : dlookup k l = some v) : k ∈ dkeys l := by
  by_contra hc
  rw [← dlookup_eq_none_iff] at hc
  rw [h] at hc
  cases hc

/-- Lookup through the mark-inactive map. -/
theorem dlookup_markInactive (k : ℕ) (l : List (ℕ × TrackedObject)) :
    dlookup k (markInactive l)
      = (dlookup k l).map (fun o => { o with isActive := false }) := by
  induction l with
  | nil => rfl
  | cons p rest ih =>
    rw [markInactive, List.map_cons, dlookup, dlookup]
    by_cases h : p.1 = k
    · simp [h]
    · simp only [h, if_neg h, if_false]
      rw [show List.map (fun q => (q.1, { q.2 with isActive := false })) rest
        = markInactive rest from rfl, ih]

/-- Lookup prefers the left part of an append when it succeeds there. -/
theorem dlookup_append_left {α : Type} (k : ℕ) (l1 l2 : List (ℕ × α)) (v : α)
    (h : dlookup k l1 = some v) : dlookup k (l1 ++ l2) = some v := by
  induction l1 with
  | nil => cases h
  | cons p rest ih =>
    rw [dlookup] at h
    rw [List.cons_append, dlookup]
    by_cases h2 : p.1 = k
    · rw [if_pos h2] at h ⊢
      exact h
    · rw [if_neg h2] at h ⊢
      exact ih h

/-- Lookup skips a left part in which it fails. -/
theorem dlookup_append_of_none {α : Type} (k : ℕ) (l1 l2 : List (ℕ × α))
    (h : dlookup k l1 = none) : dlookup k (l1 ++ l2) = dlookup k l2 := by
  induction l1 with
  | nil => rfl
  | cons p rest ih =>
    rw [dlookup] at h
    rw [List.cons_append, dlookup]
    by_cases h2 : p.1 = k
    · rw [if_pos h2] at h
      cases h
    · rw [if_neg h2] at h ⊢
      exact ih h

/-- Lookup through a filter, for distinct keys: the entry survives exactly
when the filter keeps it. -/
theorem dlookup_filter (q : ℕ × TrackedObject → Bool) (l : List (ℕ × TrackedObject))
    (k : ℕ) (o : TrackedObject) (hnd : (dkeys l).Nodup) (h : dlookup k l = some o) :
    dlookup k (l.filter q) = if q (k, o) = true then some o else none := by
  induction l with
  | nil => cases h
  | cons p rest ih =>
    rw [dkeys, List.map_cons, List.nodup_cons] at hnd
    rw [dlookup] at h
    by_cases h2 : p.1 = k
    · rw [if_pos h2] at h
      injection h with h3
      rw [List.filter_cons]
      have hrest : dlookup k (rest.filter q) = none := by
        rw [dlookup_eq_none_iff]
        intro hc
        refine hnd.1 ?_
        rw [h2]
        exact ((List.filter_sublist rest).map Prod.fst).subset hc
      by_cases hq : q p = true
      · rw [if_pos hq, dlookup, if_pos h2, h3]
        have : q (k, o) = true := by
          rw [← h2, ← h3]
          exact hq
        rw [if_pos this]
      · rw [if_neg hq, hrest]
        have : q (k, o) = false := by
          rw [← h2, ← h3]
          exact Bool.not_eq_true _ ▸ (by simpa using hq)
        rw [this]
        simp
    · rw [if_neg h2] at h
      rw [List.filter_cons]
      by_cases hq : q p = true
      · rw [if_pos hq, dlookup, if_neg h2]
        exact ih hnd.2 h
      · rw [if_neg hq]
        exact ih hnd.2 h

/-- The event-processing fold keeps the key list (no nodup needed). -/
theorem processEvents_keys (maxD : ℕ) (now : ℤ) :
    ∀ (es : List MotionEvent) (acc : List (ℕ × TrackedObject) × List MotionEvent),
    dkeys (es.foldl (processEvent maxD now) acc).1 = dkeys acc.1 := by
  intro es
  induction es with
  | nil => intro acc; rfl
  | cons e rest ih =>
    intro acc
    rw [List.foldl_cons, ih]
    rw [processEvent]
    cases bestMatch maxD acc.1 e.centroid with
    | none => rfl
    | some tid =>
      dsimp only
      exact dkeys_dupdate _ _ _

/-- The matching phase keeps the key list. -/
theorem matchPhase_keys (maxD : ℕ) (tracks : List (ℕ × TrackedObject))
    (es : List MotionEvent) (now : ℤ) :
    dkeys (matchPhase maxD tracks es now).1 = dkeys tracks := by
  rw [matchPhase]
  exact processEvents_keys maxD now es (tracks, [])

/-- Keys of the pre-cleanup map of an update call: the old keys followed by
the freshly created range, with no duplicates. -/
theorem update_cr_keys (st : ObjectTracker) (es : List MotionEvent) (now : ℤ)
    (hsound : trackerKeysSound st) :
    dkeys ((matchPhase st.maxTrackingDistance (markInactive st.tracked) es now).2.foldl
        (createTracksStep now)
        ((matchPhase st.maxTrackingDistance (markInactive st.tracked) es now).1,
         st.nextTrackId)).1
      = dkeys st.tracked
        ++ List.range' st.nextTrackId
            (matchPhase st.maxTrackingDistance (markInactive st.tracked) es now).2.length
    ∧ (dkeys ((matchPhase st.maxTrackingDistance (markInactive st.tracked) es now).2.foldl
        (createTracksStep now)
        ((matchPhase st.maxTrackingDistance (markInactive st.tracked) es now).1,
         st.nextTrackId)).1).Nodup := by
  obtain ⟨hbound, hnd⟩ := hsound
  obtain ⟨-, newl, hsplit, hknewl, -⟩ := createTracks_foldl_spec now
    (matchPhase st.maxTrackingDistance (markInactive st.tracked) es now).2
    (matchPhase st.maxTrackingDistance (markInactive st.tracked) es now).1
    st.nextTrackId
  have hkeq : dkeys ((matchPhase st.maxTrackingDistance (markInactive st.tracked) es now).2.foldl
        (createTracksStep now)
        ((matchPhase st.maxTrackingDistance (markInactive st.tracked) es now).1,
         st.nextTrackId)).1
      = dkeys st.tracked
        ++ List.range' st.nextTrackId
            (matchPhase st.maxTrackingDistance (markInactive st.tracked) es now).2.length := by
    rw [hsplit, dkeys_append, hknewl, matchPhase_keys, dkeys_markInactive]
  refine ⟨hkeq, ?_⟩
  rw [hkeq, List.nodup_append]
  refine ⟨hnd, (sorted_range_consecutive _ _).nodup, ?_⟩
  intro a ha hb
  have h1 := hbound a ha
  have h2 := (List.mem_range'_1.mp hb).1
  omega

/-- Presence of an unmatched track after one update call: it survives, with
its active flag cleared, exactly when it is not stale. -/
theorem update_lookup_present (st : ObjectTracker) (es : List MotionEvent) (now : ℤ)
    (k : ℕ) (obj : TrackedObject) (hsound : trackerKeysSound st)
    (hk : dlookup k st.tracked = some obj)
    (hnm : notMatchedIn st (es, now) k) :
    dlookup k (ObjectTracker.update st es now).1.tracked
      = if now - obj.lastSeen ≤ inactiveTimeout
        then some { obj with isActive := false } else none := by
  have hkI : dlookup k (markInactive st.tracked) = some { obj with isActive := false } := by
    rw [dlookup_markInactive, hk]
    rfl
  have hmp : dlookup k
      (matchPhase st.maxTrackingDistance (markInactive st.tracked) es now).1
      = some { obj with isActive := false } := by
    rw [notMatchedIn] at hnm
    rw [hnm, hkI]
  obtain ⟨-, newl, hsplit, -, -⟩ := createTracks_foldl_spec now
    (matchPhase st.maxTrackingDistance (markInactive st.tracked) es now).2
    (matchPhase st.maxTrackingDistance (markInactive st.tracked) es now).1
    st.nextTrackId
  have hcr : dlookup k
      ((matchPhase st.maxTrackingDistance (markInactive st.tracked) es now).2.foldl
        (createTracksStep now)
        ((matchPhase st.maxTrackingDistance (markInactive st.tracked) es now).1,
         st.nextTrackId)).1
      = some { obj with isActive := false } := by
    rw [hsplit]
    exact dlookup_append_left _ _ _ _ hmp
  have hndcr := (update_cr_keys st es now hsound).2
  rw [update_tracked_eq]
  rw [show cleanupInactiveTracks now
      ((matchPhase st.maxTrackingDistance (markInactive st.tracked) es now).2.foldl
        (createTracksStep now)
        ((matchPhase st.maxTrackingDistance (markInactive st.tracked) es now).1,
         st.nextTrackId)).1
    = ((matchPhase st.maxTrackingDistance (markInactive st.tracked) es now).2.foldl
        (createTracksStep now)
        ((matchPhase st.maxTrackingDistance (markInactive st.tracked) es now).1,
         st.nextTrackId)).1.filter
        (fun p => decide (now - p.2.lastSeen ≤ inactiveTimeout)) from rfl]
  rw [dlookup_filter _ _ _ _ hndcr hcr]
  by_cases hcond : now - obj.lastSeen ≤ inactiveTimeout
  · rw [if_pos hcond, if_pos]
    exact decide_eq_true hcond
  · rw [if_neg hcond, if_neg]
    simp only [decide_eq_true_eq]
    exact hcond

/-- A removed track (key below the id counter) does not reappear after one
update call. -/
theorem update_lookup_absent (st : ObjectTracker) (es : List MotionEvent) (now : ℤ)
    (k : ℕ) (hkid : k < st.nextTrackId) (h : dlookup k st.tracked = none) :
    dlookup k (ObjectTracker.update st es now).1.tracked = none := by
  have hnotmem : k ∉ dkeys st.tracked := (dlookup_eq_none_iff _ _).mp h
  have h1 : dlookup k (markInactive st.tracked) = none := by
    rw [dlookup_markInactive, h]
    rfl
  have h2 : dlookup k
      (matchPhase st.maxTrackingDistance (markInactive st.tracked) es now).1 = none := by
    rw [dlookup_eq_none_iff, matchPhase_keys, dkeys_markInactive]
    exact hnotmem
  obtain ⟨-, newl, hsplit, hknewl, -⟩ := createTracks_foldl_spec now
    (matchPhase st.maxTrackingDistance (markInactive st.tracked) es now).2
    (matchPhase st.maxTrackingDistance (markInactive st.tracked) es now).1
    st.nextTrackId
  have h3 : dlookup k
      ((matchPhase st.maxTrackingDistance (markInactive st.tracked) es now).2.foldl
        (createTracksStep now)
        ((matchPhase st.maxTrackingDistance (markInactive st.tracked) es now).1,
         st.nextTrackId)).1 = none := by
    rw [hsplit, dlookup_append_of_none _ _ _ h2, dlookup_eq_none_iff, hknewl]
    intro hc
    have := (List.mem_range'_1.mp hc).1
    omega
  rw [update_tracked_eq, dlookup_eq_none_iff]
  intro hc
  have := (dkeys_cleanup_sublist now _).subset hc
  rw [dlookup_eq_none_iff] at h3
  exact h3 this

/-- A removed track does not reappear over any run. -/
theorem runTracker_lookup_absent :
    ∀ (calls : List (List MotionEvent × ℤ)) (st : ObjectTracker) (k : ℕ),
    k < st.nextTrackId → dlookup k st.tracked = none →
    dlookup k (runTracker st calls).tracked = none := by
  intro calls
  induction calls with
  | nil =>
    intro st k hkid h
    exact h
  | cons c rest ih =>
    intro st k hkid h
    exact ih (ObjectTracker.update st c.1 c.2).1 k
      (lt_of_lt_of_le hkid (nextTrackId_mono st c.1 c.2))
      (update_lookup_absent st c.1 c.2 k hkid h)

/-- Membership test agrees with key-list membership. -/
theorem dictMem_iff (d : List (String × ℕ)) (k : String) :
    dictMem d k = true ↔ k ∈ dictKeys d := by
  rw [dictMem, List.any_eq_true]
  constructor
  · rintro ⟨p, hp, hpk⟩
    rw [beq_iff_eq] at hpk
    rw [← hpk]
    exact List.mem_map_of_mem Prod.fst hp
  · intro h
    rw [dictKeys, List.mem_map] at h
    obtain ⟨p, hp, hpk⟩ := h
    exact ⟨p, hp, by rw [beq_iff_eq, hpk]⟩

/-- Keys after an assignment: unchanged for a present key, the new key
appended otherwise. -/
theorem dictKeys_dictSet (d : List (String × ℕ)) (k : String) (v : ℕ) :
    dictKeys (dictSet d k v) = if dictMem d k then dictKeys d else dictKeys d ++ [k] := by
  rw [dictSet]
  by_cases h : dictMem d k
  · rw [if_pos h, if_pos h, dictKeys, dictKeys, List.map_map]
    congr 1
    funext p
    by_cases h2 : p.1 == k <;> simp [h2, Function.comp]
  · rw [if_neg h, if_neg h, dictKeys, dictKeys, List.map_append]
    rfl

/-- The assigned key is a key afterwards. -/
theorem mem_dictKeys_dictSet_self (d : List (String × ℕ)) (k : String) (v : ℕ) :
    k ∈ dictKeys (dictSet d k v) := by
  rw [dictKeys_dictSet]
  by_cases h : dictMem d k
  · rw [if_pos h]
    exact (dictMem_iff d k).mp h
  · rw [if_neg h]
    exact List.mem_append_right _ (List.mem_singleton_self k)

/-- Assignment keeps existing keys. -/
theorem mem_dictKeys_dictSet_of_mem (d : List (String × ℕ)) (k k2 : String) (v : ℕ)
    (h : k ∈ dictKeys d) : k ∈ dictKeys (dictSet d k2 v) := by
  rw [dictKeys_dictSet]
  by_cases h2 : dictMem d k2
  · rw [if_pos h2]
    exact h
  · rw [if_neg h2]
    exact List.mem_append_left _ h

/-- Assignment keeps the keys duplicate-free. -/
theorem dictKeys_dictSet_nodup (d : List (String × ℕ)) (k : String) (v : ℕ)
    (h : (dictKeys d).Nodup) : (dictKeys (dictSet d k v)).Nodup := by
  rw [dictKeys_dictSet]
  by_cases h2 : dictMem d k
  · rw [if_pos h2]
    exact h
  · rw [if_neg h2]
    rw [List.nodup_append]
    refine ⟨h, List.nodup_singleton k, ?_⟩
    intro a ha hb
    rw [List.mem_singleton] at hb
    subst hb
    exact h2 ((dictMem_iff d a).mpr ha)

/-- Assigning the common value keeps a constant dict constant. -/
theorem dictSet_all_value (d : List (String × ℕ)) (k : String) (v : ℕ)
    (h : ∀ p ∈ d, p.2 = v) : ∀ p ∈ dictSet d k v, p.2 = v := by
  intro p hp
  rw [dictSet] at hp
  by_cases h2 : dictMem d k
  · rw [if_pos h2] at hp
    rw [List.mem_map] at hp
    obtain ⟨q, hq, hqe⟩ := hp
    by_cases h3 : q.1 == k
    · rw [if_pos h3] at hqe
      rw [← hqe]
    · rw [if_neg h3] at hqe
      rw [← hqe]
      exact h q hq
  · rw [if_neg h2] at hp
    rcases List.mem_append.1 hp with h3 | h3
    · exact h p h3
    · rw [List.mem_singleton] at h3
      rw [h3]

/-- The zone-name fold keeps keys duplicate-free. -/
theorem initCounts_fold_nodup (zs : List Zone) :
    ∀ (d : List (String × ℕ)), (dictKeys d).Nodup →
    (dictKeys (zs.foldl (fun d z => dictSet d z.name 0) d)).Nodup := by
  induction zs with
  | nil => intro d h; exact h
  | cons z rest ih =>
    intro d h
    rw [List.foldl_cons]
    exact ih _ (dictKeys_dictSet_nodup d z.name 0 h)

/-- Initial counter keys are duplicate-free. -/
theorem initCounts_nodup (zs : List Zone) : (dictKeys (initCounts zs)).Nodup := by
  rw [initCounts]
  exact dictKeys_dictSet_nodup _ _ _ (initCounts_fold_nodup zs [] (by simp [dictKeys]))

/-- The zone-name fold keeps existing keys. -/
theorem initCounts_fold_mem (zs : List Zone) :
    ∀ (d : List (String × ℕ)) (k : String), k ∈ dictKeys d →
    k ∈ dictKeys (zs.foldl (fun d z => dictSet d z.name 0) d) := by
  induction zs with
  | nil => intro d k h; exact h
  | cons z rest ih =>
    intro d k h
    rw [List.foldl_cons]
    exact ih _ k (mem_dictKeys_dictSet_of_mem d k z.name 0 h)

/-- Every listed zone name is a key of the zone-name fold. -/
theorem initCounts_fold_mem_name (zs : List Zone) :
    ∀ (d : List (String × ℕ)) (z : Zone), z ∈ zs →
    z.name ∈ dictKeys (zs.foldl (fun d z => dictSet d z.name 0) d) := by
  induction zs with
  | nil => intro d z h; cases h
  | cons z0 rest ih =>
    intro d z h
    rw [List.foldl_cons]
    rcases List.mem_cons.1 h with h2 | h2
    · subst h2
      exact initCounts_fold_mem rest _ z.name (mem_dictKeys_dictSet_self d z.name 0)
    · exact ih _ z h2

/-- The Unknown bucket is always a key of the initial counters. -/
theorem strUnknown_mem_initCounts (zs : List Zone) : strUnknown ∈ dictKeys (initCounts zs) := by
  rw [initCounts]
  exact mem_dictKeys_dictSet_self _ strUnknown 0

/-- Every configured zone name is a key of the initial counters. -/
theorem zone_name_mem_initCounts (zs : List Zone) (z : Zone) (h : z ∈ zs) :
    z.name ∈ dictKeys (initCounts zs) := by
  rw [initCounts]
  exact mem_dictKeys_dictSet_of_mem _ z.name strUnknown 0 (initCounts_fold_mem_name zs [] z h)

/-- All initial counters are zero. -/
theorem initCounts_all_zero (zs : List Zone) : ∀ p ∈ initCounts zs, p.2 = 0 := by
  rw [initCounts]
  refine dictSet_all_value _ strUnknown 0 ?_
  have : ∀ (d : List (String × ℕ)), (∀ p ∈ d, p.2 = 0) →
      ∀ p ∈ zs.foldl (fun d z => dictSet d z.name 0) d, p.2 = 0 := by
    induction zs with
    | nil => intro d h; exact h
    | cons z rest ih =>
      intro d h
      rw [List.foldl_cons]
      exact ih _ (dictSet_all_value d z.name 0 h)
  exact this [] (by simp)

/-- An all-zero dict sums to zero. -/
theorem sumValues_all_zero (d : List (String × ℕ)) (h : ∀ p ∈ d, p.2 = 0) :
    sumValues d = 0 := by
  induction d with
  | nil => rfl
  | cons p rest ih =>
    rw [sumValues, List.map_cons, List.sum_cons, h p (List.mem_cons_self p rest)]
    rw [show (rest.map Prod.snd).sum = sumValues rest from rfl,
      ih (fun q hq => h q (List.mem_cons_of_mem p hq))]

/-- Reading a present key of an all-zero dict gives zero. -/
theorem dictGet_of_mem_all_zero (d : List (String × ℕ)) (k : String)
    (hmem : k ∈ dictKeys d) (h : ∀ p ∈ d, p.2 = 0) : dictGet d k = some 0 := by
  induction d with
  | nil => simp [dictKeys] at hmem
  | cons p rest ih =>
    rw [dictGet, List.find?]
    by_cases h2 : p.1 == k
    · rw [h2]
      show some p.2 = some 0
      rw [h p (List.mem_cons_self p rest)]
    · rw [Bool.not_eq_true] at h2
      rw [h2]
      rw [dictKeys, List.map_cons, List.mem_cons] at hmem
      rcases hmem with h3 | h3
      · rw [← h3] at h2
        simp at h2
      · exact ih h3 (fun q hq => h q (List.mem_cons_of_mem p hq))

/-- Increment of a present key succeeds and maps the entries. -/
theorem dictIncr_of_mem (d : List (String × ℕ)) (k : String) (hmem : k ∈ dictKeys d) :
    dictIncr d k = some (d.map (fun p => if p.1 == k then (p.1, p.2 + 1) else p)) := by
  rw [dictIncr, if_pos ((dictMem_iff d k).mpr hmem)]

/-- Sum of a cons cell. -/
theorem sumValues_cons (p : String × ℕ) (l : List (String × ℕ)) :
    sumValues (p :: l) = p.2 + sumValues l := by
  simp [sumValues]

/-- The increment map keeps the keys. -/
theorem dictKeys_incrMap (d : List (String × ℕ)) (k : String) :
    dictKeys (d.map (fun p => if p.1 == k then (p.1, p.2 + 1) else p)) = dictKeys d := by
  rw [dictKeys, dictKeys, List.map_map]
  congr 1
  funext p
  by_cases h2 : p.1 == k <;> simp [h2, Function.comp]

/-- The increment map of an absent key changes nothing. -/
theorem incrMap_of_not_mem (d : List (String × ℕ)) (k : String) (h : k ∉ dictKeys d) :
    d.map (fun p => if p.1 == k then (p.1, p.2 + 1) else p) = d := by
  induction d with
  | nil => rfl
  | cons p rest ih =>
    rw [dictKeys, List.map_cons, List.mem_cons, not_or] at h
    rw [List.map_cons]
    rw [if_neg (fun hb => h.1 (beq_iff_eq.mp hb).symm)]
    rw [ih (by simpa [dictKeys] using h.2)]

/-- Incrementing one present key (keys distinct) grows the sum by one. -/
theorem sumValues_incrMap (d : List (String × ℕ)) (k : String)
    (hmem : k ∈ dictKeys d) (hnd : (dictKeys d).Nodup) :
    sumValues (d.map (fun p => if p.1 == k then (p.1, p.2 + 1) else p))
      = sumValues d + 1 := by
  induction d with
  | nil => simp [dictKeys] at hmem
  | cons p rest ih =>
    rw [dictKeys, List.map_cons, List.nodup_cons] at hnd
    rw [dictKeys, List.map_cons, List.mem_cons] at hmem
    rw [List.map_cons]
    by_cases h2 : p.1 = k
    · rw [if_pos (beq_iff_eq.mpr h2)]
      have hrest : rest.map (fun p => if p.1 == k then (p.1, p.2 + 1) else p) = rest := by
        refine incrMap_of_not_mem rest k ?_
        rw [← h2]
        exact hnd.1
      rw [hrest, sumValues_cons, sumValues_cons]
      omega
    · rw [if_neg (fun hb => h2 (beq_iff_eq.mp hb))]
      have hm2 : k ∈ dictKeys rest := by
        rcases hmem with h3 | h3
        · exact absurd h3.symm h2
        · exact h3
      rw [sumValues_cons, sumValues_cons, ih hm2 hnd.2]
      omega

/-- Unfolding of a read on a cons cell. -/
theorem dictGet_cons (p : String × ℕ) (l : List (String × ℕ)) (k : String) :
    dictGet (p :: l) k = if p.1 == k then some p.2 else dictGet l k := by
  rw [dictGet, List.find?]
  by_cases h : (p.1 == k) = true
  · rw [h]
    simp
  · rw [Bool.not_eq_true] at h
    rw [h]
    simp [dictGet]

/-- Reading the incremented key. -/
theorem dictGet_incrMap_self (d : List (String × ℕ)) (k : String) :
    dictGet (d.map (fun p => if p.1 == k then (p.1, p.2 + 1) else p)) k
      = (dictGet d k).map (fun v => v + 1) := by
  induction d with
  | nil => rfl
  | cons p rest ih =>
    rw [List.map_cons]
    by_cases h2 : (p.1 == k) = true
    · rw [if_pos h2, dictGet_cons, dictGet_cons,
        if_pos (show (((p.1, p.2 + 1)).1 == k) = true from h2), if_pos h2]
      rfl
    · rw [if_neg h2, dictGet_cons, dictGet_cons, if_neg h2, if_neg h2]
      exact ih

/-- Reading any other key after an increment. -/
theorem dictGet_incrMap_ne (d : List (String × ℕ)) (k k2 : String) (hne : k2 ≠ k) :
    dictGet (d.map (fun p => if p.1 == k then (p.1, p.2 + 1) else p)) k2 = dictGet d k2 := by
  induction d with
  | nil => rfl
  | cons p rest ih =>
    rw [List.map_cons]
    by_cases h2 : (p.1 == k) = true
    · have hp2 : ¬ ((p.1 == k2) = true) := by
        intro hb
        exact hne (by rw [← beq_iff_eq.mp hb]; exact beq_iff_eq.mp h2)
      rw [if_pos h2, dictGet_cons, dictGet_cons,
        if_neg (show ¬ ((((p.1, p.2 + 1)).1 == k2) = true) from hp2), if_neg hp2]
      exact ih
    · rw [if_neg h2, dictGet_cons, dictGet_cons]
      by_cases h3 : (p.1 == k2) = true
      · rw [if_pos h3, if_pos h3]
      · rw [if_neg h3, if_neg h3]
        exact ih

/-- The bucket of every position is a key of the initial counters. -/
theorem bucketName_mem_initCounts (zs : List Zone) (p : ℤ × ℤ) :
    bucketName zs p ∈ dictKeys (initCounts zs) := by
  rw [bucketName]
  cases hz : getZoneForPosition zs p with
  | none => exact strUnknown_mem_initCounts zs
  | some n =>
    dsimp only
    by_cases he : n.isEmpty
    · rw [if_pos he]
      exact strUnknown_mem_initCounts zs
    · rw [if_neg he]
      rw [getZoneForPosition, Option.map_eq_some'] at hz
      obtain ⟨z, hzf, hzn⟩ := hz
      rw [← hzn]
      exact zone_name_mem_initCounts zs z (List.mem_of_find?_eq_some hzf)

/-- The loop body increments exactly the bucket of the position. -/
theorem zoneBucketStep_eq (zs : List Zone) (d : List (String × ℕ)) (p : ℤ × ℤ) :
    zoneBucketStep zs d p = dictIncr d (bucketName zs p) := by
  rw [zoneBucketStep, bucketName]
  cases getZoneForPosition zs p with
  | none => rfl
  | some n =>
    dsimp only
    by_cases he : n.isEmpty
    · rw [if_pos he, if_pos he]
    · rw [if_neg he, if_neg he]

/-- Invariant of the counting fold: it succeeds, keeps the keys, adds one
to the sum per position, and adds to each key the number of positions whose
bucket it is. -/
theorem analyze_fold (zs : List Zone) :
    ∀ (ps : List (ℤ × ℤ)) (d : List (String × ℕ)),
    dictKeys d = dictKeys (initCounts zs) → (dictKeys d).Nodup →
    ∃ d2, ps.foldlM (zoneBucketStep zs) d = some d2
      ∧ dictKeys d2 = dictKeys d
      ∧ sumValues d2 = sumValues d + ps.length
      ∧ ∀ k, dictGet d2 k
          = (dictGet d k).map
              (fun v => v + (ps.filter (fun q => bucketName zs q == k)).length) := by
  intro ps
  induction ps with
  | nil =>
    intro d hk hnd
    refine ⟨d, rfl, rfl, by simp, ?_⟩
    intro k
    cases dictGet d k <;> simp
  | cons p rest ih =>
    intro d hk hnd
    have hbmem : bucketName zs p ∈ dictKeys d := by
      rw [hk]
      exact bucketName_mem_initCounts zs p
    have hstep : zoneBucketStep zs d p
        = some (d.map (fun q => if q.1 == bucketName zs p then (q.1, q.2 + 1) else q)) := by
      rw [zoneBucketStep_eq, dictIncr_of_mem d _ hbmem]
    have hk1 : dictKeys (d.map (fun q => if q.1 == bucketName zs p then (q.1, q.2 + 1) else q))
        = dictKeys d := dictKeys_incrMap d _
    obtain ⟨d2, hfold, hkeys2, hsum2, hget2⟩ :=
      ih (d.map (fun q => if q.1 == bucketName zs p then (q.1, q.2 + 1) else q))
        (by rw [hk1, hk]) (by rw [hk1]; exact hnd)
    refine ⟨d2, ?_, ?_, ?_, ?_⟩
    · rw [List.foldlM_cons, hstep]
      exact hfold
    · rw [hkeys2, hk1]
    · rw [hsum2, sumValues_incrMap d _ hbmem hnd, List.length_cons]
      omega
    · intro k
      rw [hget2 k]
      by_cases hbk : (bucketName zs p == k) = true
      · have heq : bucketName zs p = k := beq_iff_eq.mp hbk
        subst heq
        rw [dictGet_incrMap_self d _]
        rw [List.filter_cons, if_pos (by simp)]
        cases dictGet d (bucketName zs p) <;> simp
        omega
      · have hne : k ≠ bucketName zs p := by
          intro hb
          exact hbk (beq_iff_eq.mpr (by rw [hb]))
        rw [dictGet_incrMap_ne d _ k hne]
        rw [List.filter_cons, if_neg hbk]

/-! Claim theorems. -/

/-- C1, counterexample: in a single update cycle at time 1000000 with two
events near the origin, both events are matched to track 1 (created one cycle
earlier with one position), so its position sequence grows from one entry to
three in one cycle; and both matched events keep track_id = none, since
ObjectTracker.update never assigns it. -/
theorem tracker_double_match_single_cycle :
    (dlookup 1 trackerEx1.tracked).map (fun o => o.positions.length) = some 1
    ∧ (dlookup 1 trackerEx2.1.tracked).map (fun o => o.positions.length) = some 3
    ∧ trackerEx2.2.map (fun e => e.trackId) = [none, none] := by decide

/-- C2: with the parsed non-wrapping window 08:00-10:00, get_next_active_time
at noon on 2023-01-31 reaches the day-increment replace of line 173 with
day = 32 and raises ValueError (modelled as none), while the same call one
day earlier succeeds; the filter is therefore not total over well-typed
datetimes and parsed configurations. -/
theorem getNextActiveTime_month_end_error :
    getNextActiveTime dayFilter dtJanLast = none
    ∧ (getNextActiveTime dayFilter { dtJanLast with day := 30 }).isSome = true := by decide

/-- C3: a default-configured tracker stores stationary_threshold 5 * 60 =
300, yet get_stationary_objects reports an active track with
stationary_count = 30 as stationary, because is_stationary is called with
its default threshold_frames = 30 and the stored threshold is never used. -/
theorem stationary_uses_default_not_config :
    (ObjectTracker.init {}).stationaryThreshold = 300
    ∧ trackerStationaryEx.getStationaryObjects = [objCount30]
    ∧ objCount30.stationaryCount = 30
    ∧ objCount30.stationaryCount < trackerStationaryEx.stationaryThreshold := by decide

/-- C4: should_publish_detection is true exactly when the filter is disabled
or the minutes-since-midnight value of the timestamp falls in the configured
window, with the wrap-around disjunction when start > end and the exclusive
end in both cases; and the four concrete vectors of the 22:00-06:00 window
behave as the spec states. -/
theorem shouldPublish_window_semantics (f : DetectionFilter) (ts : DateTime) :
    (shouldPublishDetection f ts = true ↔
      (f.enabled = false ∨
        (let currentMinutes : ℤ := (ts.hour : ℤ) * 60 + (ts.minute : ℤ)
         let startMinutes : ℤ := f.startHour * 60 + f.startMinute
         let endMinutes : ℤ := f.endHour * 60 + f.endMinute
         if startMinutes > endMinutes then
           currentMinutes ≥ startMinutes ∨ currentMinutes < endMinutes
         else startMinutes ≤ currentMinutes ∧ currentMinutes < endMinutes)))
    ∧ shouldPublishDetection nightFilter (dtSample 23 30 0) = true
    ∧ shouldPublishDetection nightFilter (dtSample 12 0 0) = false
    ∧ shouldPublishDetection nightFilter (dtSample 6 0 0) = false
    ∧ shouldPublishDetection nightFilter (dtSample 21 59 59) = false := by
  refine ⟨?_, by decide, by decide, by decide, by decide⟩
  unfold shouldPublishDetection
  by_cases hf : f.enabled = false
  · simp [hf]
  · simp only [hf, if_false, false_or]
    split <;> simp_all [decide_eq_true_iff, ge_iff_le]

/-- C6: get_zone_for_position returns none exactly when no zone contains the
point; it returns the name of the first zone in configured order that
contains the point; and containment is boundary inclusive, a point at
squared distance equal to the squared (nonnegative) radius being inside. -/
theorem zone_first_match_inclusive (zs : List Zone) (p : ℤ × ℤ) :
    (getZoneForPosition zs p = none ↔ ∀ z ∈ zs, pointInZone p z = false)
    ∧ (∀ i : Fin zs.length,
        pointInZone p (zs.get i) = true →
        (∀ j (hj : j < i.1), pointInZone p (zs.get ⟨j, lt_trans hj i.2⟩) = false) →
        getZoneForPosition zs p = some (zs.get i).name)
    ∧ (∀ z : Zone, 0 ≤ z.radius → distSq p (z.x, z.y) = z.radius ^ 2 →
        pointInZone p z = true) := by
  refine ⟨?_, ?_, ?_⟩
  · simp [getZoneForPosition, List.find?_eq_none]
  · intro i hi hbefore
    simp [getZoneForPosition, find_first (fun z => pointInZone p z) zs i hi hbefore]
  · intro z hr hd
    simp [pointInZone, hr, hd]

/-- C8: the parsed hour and minute always lie in 0..23 and 0..59 for every
input string; the string from the test vector falls back to (22, 0); and a
filter built from an invalid start string and end 06:00 carries start 22:00
without failing. -/
theorem parseTime_in_range_with_fallback (s : String) :
    (0 ≤ (parseTime s).1 ∧ (parseTime s).1 ≤ 23 ∧ 0 ≤ (parseTime s).2 ∧ (parseTime s).2 ≤ 59)
    ∧ parseTime strInvalid = (22, 0)
    ∧ mkDetectionFilter true strInvalid strNightEnd
        = { enabled := true, startHour := 22, startMinute := 0, endHour := 6, endMinute := 0 } := by
  refine ⟨?_, by decide, by decide⟩
  unfold parseTime
  repeat' split
  all_goals simp_all

/-- C9: when max_area is positive and the contour areas are nonnegative (as
cv2.contourArea guarantees), every emitted motion event carries confidence
min(1, area / max_area) for a contour inside the configured area band, that
confidence is nonnegative and at least the configured minimum; and every
in-band contour whose clamped ratio reaches the minimum confidence yields an
emitted event. -/
theorem detect_motion_confidence (cfg : MotionConfig) (now : ℤ) (contours : List Contour)
    (hmax : 0 < cfg.maxArea) (hpos : ∀ c ∈ contours, 0 ≤ c.area) :
    (∀ e ∈ detectMotionEvents cfg now contours,
      (∃ c ∈ contours, cfg.minArea ≤ c.area ∧ c.area ≤ cfg.maxArea
        ∧ e.confidence = min 1 (c.area / cfg.maxArea))
      ∧ 0 ≤ e.confidence ∧ cfg.minConfidence ≤ e.confidence)
    ∧ (∀ c ∈ contours, cfg.minArea ≤ c.area → c.area ≤ cfg.maxArea →
        cfg.minConfidence ≤ min 1 (c.area / cfg.maxArea) →
        ∃ e ∈ detectMotionEvents cfg now contours,
          e.confidence = min 1 (c.area / cfg.maxArea)) := by
  constructor
  · intro e he
    rw [detectMotionEvents, List.mem_filterMap] at he
    obtain ⟨c, hc, hfc⟩ := he
    by_cases hband : cfg.minArea ≤ c.area ∧ c.area ≤ cfg.maxArea
    · rw [if_pos hband] at hfc
      dsimp only at hfc
      by_cases hconf : min 1 (c.area / cfg.maxArea) < cfg.minConfidence
      · rw [if_pos hconf] at hfc
        cases hfc
      · rw [if_neg hconf] at hfc
        injection hfc with hfc2
        subst hfc2
        refine ⟨⟨c, hc, hband.1, hband.2, rfl⟩, ?_, ?_⟩
        · exact le_min (by norm_num) (div_nonneg (hpos c hc) hmax.le)
        · exact not_lt.mp hconf
    · rw [if_neg hband] at hfc
      cases hfc
  · intro c hc h1 h2 h3
    refine ⟨{ timestamp := now, centroid := c.centroid, area := ratTrunc c.area,
              boundingBox := c.boundingBox, confidence := min 1 (c.area / cfg.maxArea),
              trackId := none }, ?_, rfl⟩
    rw [detectMotionEvents, List.mem_filterMap]
    refine ⟨c, hc, ?_⟩
    rw [if_pos ⟨h1, h2⟩]
    dsimp only
    rw [if_neg (not_lt.mpr h3)]

/-- C9, witness: the general confidence theorem applied to the concrete
configuration with max_area 4 and one contour of area 2; the hypotheses hold
there and the first conclusion follows by applying the theorem. -/
theorem detect_motion_confidence_witness :
    (0 < motionCfgEx.maxArea ∧ ∀ c ∈ [contourEx], (0 : ℚ) ≤ c.area)
    ∧ ∀ e ∈ detectMotionEvents motionCfgEx 0 [contourEx],
        (∃ c ∈ [contourEx], motionCfgEx.minArea ≤ c.area ∧ c.area ≤ motionCfgEx.maxArea
          ∧ e.confidence = min 1 (c.area / motionCfgEx.maxArea))
        ∧ 0 ≤ e.confidence ∧ motionCfgEx.minConfidence ≤ e.confidence := by
  have h1 : 0 < motionCfgEx.maxArea := by norm_num [motionCfgEx]
  have h2 : ∀ c ∈ [contourEx], (0 : ℚ) ≤ c.area := by
    intro c hc
    rw [List.mem_singleton] at hc
    rw [hc]
    norm_num [contourEx]
  exact ⟨⟨h1, h2⟩, (detect_motion_confidence motionCfgEx 0 [contourEx] h1 h2).1⟩

/-- C1, amended: from any reachable tracker state, an update cycle in which
no track is stale grows the total number of stored positions by exactly the
number of incoming events (each event appends one centroid/area pair, to the
track it matches or to a brand-new track; a single track may absorb several
events in one cycle, as the counterexample shows), and the callers event
objects are returned unchanged, their track_id fields never written. -/
theorem tracker_one_append_per_event (cfg : TrackingConfig)
    (calls : List (List MotionEvent × ℤ)) (es : List MotionEvent) (now : ℤ)
    (hfresh : ∀ p ∈ (runTracker (ObjectTracker.init cfg) calls).tracked,
        now - p.2.lastSeen ≤ inactiveTimeout) :
    totalPositions ((runTracker (ObjectTracker.init cfg) calls).update es now).1.tracked
      = totalPositions (runTracker (ObjectTracker.init cfg) calls).tracked + es.length
    ∧ ((runTracker (ObjectTracker.init cfg) calls).update es now).2 = es := by
  refine ⟨?_, rfl⟩
  obtain ⟨-, hnd⟩ := runTracker_sound calls _ (init_sound cfg)
  set st := runTracker (ObjectTracker.init cfg) calls with hstdef
  have hnd1 : (dkeys (markInactive st.tracked)).Nodup := by
    rw [dkeys_markInactive]
    exact hnd
  obtain ⟨-, hcount⟩ := matchPhase_spec st.maxTrackingDistance now es (markInactive st.tracked) hnd1
  obtain ⟨-, newl, hsplit, hknewl, hone⟩ := createTracks_foldl_spec now
    (matchPhase st.maxTrackingDistance (markInactive st.tracked) es now).2
    (matchPhase st.maxTrackingDistance (markInactive st.tracked) es now).1
    st.nextTrackId
  have hfr1 := markInactive_fresh now st.tracked hfresh
  have hfr2 := matchPhase_fresh st.maxTrackingDistance now es (markInactive st.tracked) hfr1
  have hfr3 := createTracks_fresh now
    (matchPhase st.maxTrackingDistance (markInactive st.tracked) es now).2
    (matchPhase st.maxTrackingDistance (markInactive st.tracked) es now).1
    st.nextTrackId hfr2
  rw [update_tracked_eq, cleanup_eq_self now _ hfr3, hsplit, totalPositions_append]
  have hlen2 : newl.length
      = (matchPhase st.maxTrackingDistance (markInactive st.tracked) es now).2.length := by
    have := congrArg List.length hknewl
    simpa [dkeys] using this
  have hlen : totalPositions newl
      = (matchPhase st.maxTrackingDistance (markInactive st.tracked) es now).2.length := by
    rw [totalPositions_all_one newl (fun p hp => (hone p hp).2), hlen2]
  rw [hlen]
  have hmi := totalPositions_markInactive st.tracked
  omega

/-- C1, witness: the one-append-per-event theorem applied to the concrete
two-event cycle of the counterexample, whose single track is fresh. -/
theorem tracker_one_append_per_event_witness :
    (∀ p ∈ (runTracker (ObjectTracker.init {}) [([evAt 0 0], 0)]).tracked,
        (1000000 : ℤ) - p.2.lastSeen ≤ inactiveTimeout)
    ∧ totalPositions ((runTracker (ObjectTracker.init {}) [([evAt 0 0], 0)]).update
          [evAt 0 0, evAt 1 0] 1000000).1.tracked
      = totalPositions (runTracker (ObjectTracker.init {}) [([evAt 0 0], 0)]).tracked + 2 := by
  have hf : ∀ p ∈ (runTracker (ObjectTracker.init {}) [([evAt 0 0], 0)]).tracked,
      (1000000 : ℤ) - p.2.lastSeen ≤ inactiveTimeout := by decide
  exact ⟨hf, (tracker_one_append_per_event {} [([evAt 0 0], 0)]
    [evAt 0 0, evAt 1 0] 1000000 hf).1⟩

/-- C5: from any well-formed tracker state holding a track under key k that
no event of a nondecreasing sequence of update calls ever matches, the track
is still present after every call whose timestamp is within the 10-second
inactivity timeout of its last-seen time, and is absent from the first call
whose timestamp is strictly beyond it onward (whatever its active flag, which
each cycle clears). -/
theorem track_removed_exactly_when_stale :
    ∀ (calls : List (List MotionEvent × ℤ)) (st : ObjectTracker) (k : ℕ) (obj : TrackedObject),
    trackerKeysSound st →
    dlookup k st.tracked = some obj →
    List.Sorted (· ≤ ·) (calls.map Prod.snd) →
    (∀ i (hi : i < calls.length),
      notMatchedIn (runTracker st (calls.take i)) (calls.get ⟨i, hi⟩) k) →
    ∀ j (hj : j < calls.length),
      (dlookup k (runTracker st (calls.take (j + 1))).tracked).isSome
        = decide ((calls.get ⟨j, hj⟩).2 - obj.lastSeen ≤ inactiveTimeout) := by
  intro calls
  induction calls with
  | nil =>
    intro st k obj hsound hk hsort hnm j hj
    exact absurd hj (by simp)
  | cons c rest ih =>
    intro st k obj hsound hk hsort hnm j hj
    have hnm0 : notMatchedIn st c k := hnm 0 (by simp)
    have hpres := update_lookup_present st c.1 c.2 k obj hsound hk hnm0
    cases j with
    | zero =>
      show (dlookup k (ObjectTracker.update st c.1 c.2).1.tracked).isSome = _
      rw [hpres]
      by_cases hcond : c.2 - obj.lastSeen ≤ inactiveTimeout
      · rw [if_pos hcond]
        simp [hcond]
      · rw [if_neg hcond]
        simp [hcond]
    | succ j0 =>
      have hj0 : j0 < rest.length := by simpa using hj
      by_cases hcond : c.2 - obj.lastSeen ≤ inactiveTimeout
      · have hk1 : dlookup k (ObjectTracker.update st c.1 c.2).1.tracked
            = some { obj with isActive := false } := by
          rw [hpres, if_pos hcond]
        have hsound1 := update_preserves_sound st c.1 c.2 hsound
        have hsort1 : List.Sorted (· ≤ ·) (rest.map Prod.snd) :=
          (List.pairwise_cons.1 hsort).2
        have hnm1 : ∀ i (hi : i < rest.length),
            notMatchedIn (runTracker (ObjectTracker.update st c.1 c.2).1 (rest.take i))
              (rest.get ⟨i, hi⟩) k := by
          intro i hi
          exact hnm (i + 1) (by simpa using hi)
        exact ih (ObjectTracker.update st c.1 c.2).1 k { obj with isActive := false }
          hsound1 hk1 hsort1 hnm1 j0 hj0
      · have hk1 : dlookup k (ObjectTracker.update st c.1 c.2).1.tracked = none := by
          rw [hpres, if_neg hcond]
        have hkmem : k ∈ dkeys st.tracked := mem_of_dlookup_some k _ obj hk
        have hkid : k < st.nextTrackId := hsound.1 k hkmem
        have hkid1 : k < (ObjectTracker.update st c.1 c.2).1.nextTrackId :=
          lt_of_lt_of_le hkid (nextTrackId_mono st c.1 c.2)
        have habs := runTracker_lookup_absent (rest.take (j0 + 1))
          (ObjectTracker.update st c.1 c.2).1 k hkid1 hk1
        have hle : c.2 ≤ (rest.get ⟨j0, hj0⟩).2 := by
          have hall := (List.pairwise_cons.1 hsort).1
          exact hall _ (List.mem_map_of_mem Prod.snd (rest.get_mem _ _))
        have hnot : ¬ ((rest.get ⟨j0, hj0⟩).2 - obj.lastSeen ≤ inactiveTimeout) := by
          omega
        show (dlookup k (runTracker (ObjectTracker.update st c.1 c.2).1
            (rest.take (j0 + 1))).tracked).isSome = _
        rw [habs]
        exact (decide_eq_false hnot).symm

/-- C5, witness: the removal theorem applied to a tracker holding one track
created at time 0 and three eventless calls at 3, 10 and 10.000001 seconds:
the track is still present after the call at exactly the timeout and gone
after the later one. -/
theorem track_removed_exactly_when_stale_witness :
    (trackerKeysSound trackerEx1
      ∧ dlookup 1 trackerEx1.tracked = some trackObjEx
      ∧ List.Sorted (· ≤ ·) (quietCalls.map Prod.snd)
      ∧ ∀ i (hi : i < quietCalls.length),
          notMatchedIn (runTracker trackerEx1 (quietCalls.take i)) (quietCalls.get ⟨i, hi⟩) 1)
    ∧ (dlookup 1 (runTracker trackerEx1 (quietCalls.take 2)).tracked).isSome = true
    ∧ (dlookup 1 (runTracker trackerEx1 (quietCalls.take 3)).tracked).isSome = false := by
  have h1 : trackerKeysSound trackerEx1 := by decide
  have h2 : dlookup 1 trackerEx1.tracked = some trackObjEx := by decide
  have h3 : List.Sorted (· ≤ ·) (quietCalls.map Prod.snd) := by decide
  have h4 : ∀ i (hi : i < quietCalls.length),
      notMatchedIn (runTracker trackerEx1 (quietCalls.take i)) (quietCalls.get ⟨i, hi⟩) 1 := by
    decide
  refine ⟨⟨h1, h2, h3, h4⟩, ?_, ?_⟩
  · rw [track_removed_exactly_when_stale quietCalls trackerEx1 1 trackObjEx h1 h2 h3 h4 1
      (by decide)]
    decide
  · rw [track_removed_exactly_when_stale quietCalls trackerEx1 1 trackObjEx h1 h2 h3 h4 2
      (by decide)]
    decide

/-- C7: over the lifetime of a tracker started from any configuration, the
ids assigned to newly created tracks form a strictly increasing sequence in
creation order, for any sequence of update calls; in particular no id is
ever assigned twice, even after the track with that id has been removed. -/
theorem track_ids_strictly_increasing_never_reused (cfg : TrackingConfig)
    (calls : List (List MotionEvent × ℤ)) :
    List.Sorted (· < ·) (runCreatedIds cfg calls) ∧ (runCreatedIds cfg calls).Nodup := by
  have h := (runCreatedIdsAux_sorted calls (ObjectTracker.init cfg)).1
  exact ⟨h, h.nodup⟩

/-- C10, counterexample: one zone named by the empty string contains the
origin and is the first (only) containing zone, yet its bucket stays 0 and
the Unknown bucket receives the count, because the source tests the
truthiness of the name rather than its presence. -/
theorem zone_histogram_empty_name_counterexample :
    pointInZone (0, 0) zoneNoName = true
    ∧ getZoneForPosition [zoneNoName] (0, 0) = some zoneNoName.name
    ∧ analyzeActivityByZone [zoneNoName] [(0, 0)]
        = some [(zoneNoName.name, 0), (strUnknown, 1)] := by decide

/-- C10, amended: analyze_activity_by_zone succeeds and returns counters
whose keys are the configured zone names plus the Unknown bucket; each
position is counted under exactly one bucket, the first containing zone with
a truthy (non-empty) name, otherwise Unknown; each key holds the number of
positions bucketed under it, and the values sum to the number of
positions. -/
theorem zone_histogram_partition (zones : List Zone) (positions : List (ℤ × ℤ)) :
    ∃ d, analyzeActivityByZone zones positions = some d
      ∧ dictKeys d = dictKeys (initCounts zones)
      ∧ strUnknown ∈ dictKeys d
      ∧ (∀ z ∈ zones, z.name ∈ dictKeys d)
      ∧ sumValues d = positions.length
      ∧ ∀ k ∈ dictKeys d,
          dictGet d k
            = some ((positions.filter (fun q => bucketName zones q == k)).length) := by
  obtain ⟨d2, hfold, hkeys, hsum, hget⟩ :=
    analyze_fold zones positions (initCounts zones) rfl (initCounts_nodup zones)
  refine ⟨d2, ?_, hkeys, ?_, ?_, ?_, ?_⟩
  · rw [analyzeActivityByZone]
    exact hfold
  · rw [hkeys]
    exact strUnknown_mem_initCounts zones
  · intro z hz
    rw [hkeys]
    exact zone_name_mem_initCounts zones z hz
  · rw [hsum, sumValues_all_zero (initCounts zones) (initCounts_all_zero zones)]
    omega
  · intro k hkmem
    rw [hget k, dictGet_of_mem_all_zero (initCounts zones) k (by rw [← hkeys]; exact hkmem)
      (initCounts_all_zero zones)]
    simp

end NocturnalEye
